import Mathlib

/-!
Verification of the SQL query subsystem of gp_inventory
(src/sql/parser.js and src/sql/query-engine.js) against its
specification.  The JavaScript code is shallowly embedded: JS numbers
are modelled as fractions of integers (`JSQ`), JS scalar cell values as
the closed sum `Value` (null / NaN / number / string), rows as
association lists, and every function of the two source files is
translated into a total (or fuelled, where the source loops) Lean
function carrying the same name where possible.
-/

namespace JsSql

/-- A JS number, modelled as an unnormalised fraction `num / den`.
Every constructor in this file produces `den ≠ 0`; equality and order of
two JS numbers are by cross multiplication, so the representation is
never compared structurally where the source compares numbers. -/
structure JSQ where
  num : Int
  den : Nat
deriving DecidableEq

/-- Numeric equality of JS numbers (`==` and `===` agree on numbers). -/
def numEq (a b : JSQ) : Bool :=
  a.num * b.den = b.num * a.den

/-- `a < b` as JS numbers (valid for the positive denominators the
embedding produces). -/
def numLt (a b : JSQ) : Bool :=
  a.num * b.den < b.num * a.den

def numLe (a b : JSQ) : Bool :=
  a.num * b.den ≤ b.num * a.den

def numAdd (a b : JSQ) : JSQ :=
  ⟨a.num * b.den + b.num * a.den, a.den * b.den⟩

def numSub (a b : JSQ) : JSQ :=
  ⟨a.num * b.den - b.num * a.den, a.den * b.den⟩

def numNeg (a : JSQ) : JSQ :=
  ⟨-a.num, a.den⟩

def numDiv (a b : JSQ) : JSQ :=
  if b.num < 0 then ⟨-(a.num * b.den), a.den * b.num.natAbs⟩
  else ⟨a.num * b.den, a.den * b.num.natAbs⟩

def numMin (a b : JSQ) : JSQ := if numLe a b then a else b

def numMax (a b : JSQ) : JSQ := if numLe a b then b else a

def jsqZero : JSQ := ⟨0, 1⟩

def jsqOfNat (n : Nat) : JSQ := ⟨n, 1⟩

/-- A JS scalar cell value: `null`/`undefined`, `NaN`, a (non-NaN)
number, or a string.  This is the closed value domain of the engine
(rows originate from spreadsheet-like sources holding strings, numbers
and nulls). -/
inductive Value where
  | vNull : Value
  | vNaN : Value
  | vNum : JSQ → Value
  | vStr : String → Value
deriving DecidableEq

/-- JS truthiness of a cell value (`null`, `NaN`, `0` and `""` are
falsy). -/
def jsTruthy (v : Value) : Bool :=
  match v with
  | .vNull => false
  | .vNaN => false
  | .vNum q => q.num ≠ 0
  | .vStr s => s ≠ ""

-- ============================
-- Decimal string scanning (models parseFloat and ToNumber)
-- ============================

def digitsVal (cs : List Char) : Nat :=
  cs.foldl (fun a c => a * 10 + (c.toNat - 48)) 0

/-- `parseFloat` on a list of characters: skip leading whitespace, an
optional sign, then the longest prefix `digits [. digits] [e [sign]
digits]`; `none` models NaN.  (The special values `Infinity` and
hexadecimal input are outside the modelled sublanguage.) -/
def parseFloatChars (s : List Char) : Option JSQ :=
  let cs := s.dropWhile Char.isWhitespace
  let sgn : Bool := match cs with
    | '-' :: _ => true
    | _ => false
  let cs := match cs with
    | '-' :: r => r
    | '+' :: r => r
    | _ => cs
  let ip := cs.takeWhile Char.isDigit
  let cs2 := cs.dropWhile Char.isDigit
  let fp := match cs2 with
    | '.' :: r => r.takeWhile Char.isDigit
    | _ => []
  let cs3 := match cs2 with
    | '.' :: r => r.dropWhile Char.isDigit
    | _ => cs2
  if ip.isEmpty && fp.isEmpty then none
  else
    let mantNum : Nat := digitsVal (ip ++ fp)
    let mantDen : Nat := 10 ^ fp.length
    let edig : List Char := match cs3 with
      | e :: r =>
        if e == 'e' || e == 'E' then
          match r with
          | '-' :: t => t.takeWhile Char.isDigit
          | '+' :: t => t.takeWhile Char.isDigit
          | _ => r.takeWhile Char.isDigit
        else []
      | [] => []
    let eneg : Bool := match cs3 with
      | e :: r =>
        if e == 'e' || e == 'E' then
          match r with
          | '-' :: t => !(t.takeWhile Char.isDigit).isEmpty
          | _ => false
        else false
      | [] => false
    let q0 : JSQ :=
      if edig.isEmpty then ⟨mantNum, mantDen⟩
      else if eneg then ⟨mantNum, mantDen * 10 ^ digitsVal edig⟩
      else ⟨(mantNum * 10 ^ digitsVal edig : Nat), mantDen⟩
    some (if sgn then ⟨-q0.num, q0.den⟩ else q0)

/-- `ToNumber` applied to a string (used by loose equality `==`): the
whole trimmed string must be a decimal literal; the empty string is 0;
`none` models NaN.  (Hexadecimal and `Infinity` forms are outside the
modelled sublanguage.) -/
def toNumberChars (s : List Char) : Option JSQ :=
  let cs := (((s.dropWhile Char.isWhitespace).reverse.dropWhile Char.isWhitespace).reverse)
  if cs.isEmpty then some jsqZero
  else
    let sgn : Bool := match cs with
      | '-' :: _ => true
      | _ => false
    let cs := match cs with
      | '-' :: r => r
      | '+' :: r => r
      | _ => cs
    let ip := cs.takeWhile Char.isDigit
    let cs2 := cs.dropWhile Char.isDigit
    let fp := match cs2 with
      | '.' :: r => r.takeWhile Char.isDigit
      | _ => []
    let cs3 := match cs2 with
      | '.' :: r => r.dropWhile Char.isDigit
      | _ => cs2
    if ip.isEmpty && fp.isEmpty then none
    else
      let mantNum : Nat := digitsVal (ip ++ fp)
      let mantDen : Nat := 10 ^ fp.length
      match cs3 with
      | [] => some (if sgn then ⟨-(mantNum : Int), mantDen⟩ else ⟨mantNum, mantDen⟩)
      | e :: r =>
        if e == 'e' || e == 'E' then
          let eneg : Bool := match r with
            | '-' :: _ => true
            | _ => false
          let r2 := match r with
            | '-' :: t => t
            | '+' :: t => t
            | _ => r
          let ed := r2.takeWhile Char.isDigit
          let r3 := r2.dropWhile Char.isDigit
          if ed.isEmpty || !r3.isEmpty then none
          else
            let q0 : JSQ :=
              if eneg then ⟨mantNum, mantDen * 10 ^ digitsVal ed⟩
              else ⟨(mantNum * 10 ^ digitsVal ed : Nat), mantDen⟩
            some (if sgn then ⟨-q0.num, q0.den⟩ else q0)
        else none

-- ============================
-- Number to string (models String(number))
-- ============================

/-- First `k ≤ fuel` with `d ∣ n * 10 ^ k`, i.e. the number of decimal
digits needed after the point. -/
def decScale : Nat → Nat → Nat → Int → Nat → Option Nat
  | 0, _, _, _, _ => none
  | fuel + 1, k, n, _, d => if (n * 10 ^ k) % d = 0 then some k else decScale fuel (k + 1) n 0 d

def trimZeros (cs : List Char) : List Char :=
  (cs.reverse.dropWhile (fun c => c == '0')).reverse

def padToLen (k : Nat) (cs : List Char) : List Char :=
  List.replicate (k - cs.length) '0' ++ cs

/-- `String(q)` for a JS number.  JS numbers are binary floats, whose
decimal expansions terminate, so the terminating-decimal branch covers
the image of JS numbers; the final fallback (a `num/den` rendering) is
only reached by fractions outside that image.  Exponential display of
very large/small magnitudes is outside the modelled sublanguage. -/
def jsqToString (q : JSQ) : String :=
  let n := q.num.natAbs
  let sgn := q.num < 0
  match decScale 1100 0 n q.num q.den with
  | some k =>
    let m := n * 10 ^ k / q.den
    let ipart := toString (m / 10 ^ k)
    let frac := m % 10 ^ k
    let core :=
      if frac = 0 then ipart
      else ipart ++ "." ++ String.mk (trimZeros (padToLen k (toString frac).data))
    if sgn then "-" ++ core else core
  | none => (if sgn then "-" else "") ++ toString n ++ "/" ++ toString q.den

/-- `String(v)` for a cell value. -/
def jsString (v : Value) : String :=
  match v with
  | .vNull => "null"
  | .vNaN => "NaN"
  | .vNum q => jsqToString q
  | .vStr s => s

/-- `parseFloat(v)`: the value is first converted to a string
(`String(null) = "null"` and `String(NaN) = "NaN"` scan as NaN; a
finite number round-trips); `none` models NaN. -/
def parseFloatV (v : Value) : Option JSQ :=
  match v with
  | .vNull => none
  | .vNaN => none
  | .vNum q => some q
  | .vStr s => parseFloatChars s.data

/-- `ToNumber(v)` (`Number(v)`); `none` models NaN. -/
def toNumberV (v : Value) : Option JSQ :=
  match v with
  | .vNull => some jsqZero
  | .vNaN => none
  | .vNum q => some q
  | .vStr s => toNumberChars s.data

/-- JS loose equality `==` on the scalar domain. -/
def looseEq (a b : Value) : Bool :=
  match a, b with
  | .vNull, .vNull => true
  | .vNull, _ => false
  | _, .vNull => false
  | .vNaN, _ => false
  | _, .vNaN => false
  | .vNum x, .vNum y => numEq x y
  | .vStr s, .vStr t => s == t
  | .vNum x, .vStr t =>
    match toNumberChars t.data with
    | some y => numEq x y
    | none => false
  | .vStr s, .vNum y =>
    match toNumberChars s.data with
    | some x => numEq x y
    | none => false

/-- SameValueZero, the comparison used by `Array.prototype.includes`:
like `===` but with `NaN` equal to itself; values of different scalar
types are never equal. -/
def sameValueZero (a b : Value) : Bool :=
  match a, b with
  | .vNull, .vNull => true
  | .vNaN, .vNaN => true
  | .vNum x, .vNum y => numEq x y
  | .vStr s, .vStr t => s == t
  | _, _ => false

-- ============================
-- String comparison (models localeCompare by code-point order)
-- ============================

def charCmp (a b : Char) : Ordering :=
  if a.toNat < b.toNat then .lt else if a.toNat = b.toNat then .eq else .gt

def listCmp : List Char → List Char → Ordering
  | [], [] => .eq
  | [], _ :: _ => .lt
  | _ :: _, [] => .gt
  | a :: as', b :: bs' =>
    match charCmp a b with
    | .eq => listCmp as' bs'
    | o => o

/-- `a.localeCompare(b)` modelled as code-point lexicographic order,
returning -1 / 0 / 1 as a JS number. -/
def strCmpNum (a b : String) : JSQ :=
  match listCmp a.data b.data with
  | .lt => ⟨-1, 1⟩
  | .eq => jsqZero
  | .gt => ⟨1, 1⟩

/-- query-engine.js `compareValues`: null sorts below everything and two
nulls tie; otherwise both operands are run through `parseFloat` and
compared numerically if both parse, else compared as strings. -/
def compareValues (a b : Value) : JSQ :=
  if a = .vNull && b = .vNull then jsqZero
  else if a = .vNull then ⟨-1, 1⟩
  else if b = .vNull then ⟨1, 1⟩
  else
    match parseFloatV a, parseFloatV b with
    | some na, some nb => numSub na nb
    | _, _ => strCmpNum (jsString a) (jsString b)

-- ============================
-- Rows
-- ============================

/-- A row: an association list from column name to scalar value (models
a JS object; the lists produced by the engine are duplicate-free and in
insertion order). -/
abbrev Row := List (String × Value)

/-- Property read `r[k]` (`none` = absent): the first binding wins
(rows built by the engine are duplicate-free). -/
def rowLookup : Row → String → Option Value
  | [], _ => none
  | p :: ps, k => if p.1 == k then some p.2 else rowLookup ps k

/-- JS property assignment `r[k] = v`: overwrite in place if the key
exists, else append. -/
def setKey (r : Row) (k : String) (v : Value) : Row :=
  if r.any (fun p => p.1 == k) then
    r.map (fun p => if p.1 == k then (k, v) else p)
  else r ++ [(k, v)]

/-- JS object spread `{...a, ...b}`: keys of `a` in order with `b`'s
values winning on collision, then `b`'s new keys. -/
def jsMerge (a b : Row) : Row :=
  (a.map (fun p =>
    match rowLookup b p.1 with
    | some w => (p.1, w)
    | none => p)) ++ b.filter (fun p => (rowLookup a p.1).isNone)

/-- `column.split('.')` (models String.prototype.split with a one-char
separator). -/
def splitOnDot (s : String) : List String :=
  let rec go : List Char → List Char → List String
    | [], acc => [String.mk acc.reverse]
    | x :: xs, acc => if x == '.' then String.mk acc.reverse :: go xs [] else go xs (x :: acc)
  go s.data []

def containsDot (s : String) : Bool :=
  s.data.any (fun c => c == '.')

/-- `??` (nullish coalescing) step: a stored `null` (or an absent key)
falls through. -/
def denull (o : Option Value) : Option Value :=
  match o with
  | some .vNull => none
  | x => x

/-- query-engine.js `getValue`: for a dotted name `t.c` try the bare
column `c` first, then the full dotted string; missing keys read as
null. -/
def getValue (row : Row) (column : String) : Value :=
  if containsDot column then
    let col := (splitOnDot column).getD 1 ""
    match denull (rowLookup row col) with
    | some v => v
    | none =>
      match denull (rowLookup row column) with
      | some v => v
      | none => .vNull
  else
    match rowLookup row column with
    | some v => v
    | none => .vNull

-- ============================
-- WHERE conditions
-- ============================

/-- A WHERE condition tree as built by the parser: logical nodes, a
comparison node `{type, column, value}` with a scalar value, and the IN
node, the only node whose value is an array of literals. -/
inductive Cond where
  | andC : Cond → Cond → Cond
  | orC : Cond → Cond → Cond
  | notC : Cond → Cond
  | cmpC : String → String → Value → Cond
  | inC : String → List Value → Cond
deriving DecidableEq

/-- `pattern.replace(/%/g, '.*').replace(/_/g, '.')`. -/
def likeTranslate (cs : List Char) : List Char :=
  cs.flatMap (fun c => if c == '%' then ['.', '*'] else if c == '_' then ['.'] else [c])

/-- Partial model of which strings `new RegExp` accepts: group
parentheses must balance.  Enough to express that some translated LIKE
patterns make the regular-expression constructor throw. -/
def regexParensOk : List Char → Nat → Bool
  | [], 0 => true
  | [], _ + 1 => false
  | c :: cs, d =>
    if c == '(' then regexParensOk cs (d + 1)
    else if c == ')' then
      match d with
      | 0 => false
      | d' + 1 => regexParensOk cs d'
    else regexParensOk cs d

def regexValid (cs : List Char) : Bool :=
  regexParensOk cs 0

def jsToLowerChar (c : Char) : Char :=
  if 'A' ≤ c && c ≤ 'Z' then Char.ofNat (c.toNat + 32) else c

def toLowerStr (s : String) : String :=
  String.mk (s.data.map jsToLowerChar)

/-- Anchored match of a LIKE pattern (`%` any sequence, `_` any single
character, other characters literal) against a string; faithful to the
source's translated regular expression for patterns free of further
regex metacharacters.  Fuelled; `(pattern+1)*(text+1)+1` steps always
suffice. -/
def globMatch : Nat → List Char → List Char → Bool
  | 0, _, _ => false
  | _ + 1, [], [] => true
  | _ + 1, [], _ :: _ => false
  | fuel + 1, '%' :: ps, cs =>
    globMatch fuel ps cs ||
      (match cs with
       | [] => false
       | _ :: cs2 => globMatch fuel ('%' :: ps) cs2)
  | fuel + 1, '_' :: ps, cs =>
    (match cs with
     | [] => false
     | _ :: cs2 => globMatch fuel ps cs2)
  | fuel + 1, p :: ps, cs =>
    (match cs with
     | [] => false
     | c :: cs2 => p == c && globMatch fuel ps cs2)

/-- The LIKE branch of `evaluateCondition`: both sides are stringified
(falsy values becoming `''`) and lower-cased; building the regular
expression throws on an invalid pattern (modelled by the `Except`
error), otherwise the anchored pattern is tested. -/
def likeBranch (row : Row) (col : String) (v : Value) : Except String Bool :=
  let gv := getValue row col
  let text := toLowerStr (if jsTruthy gv then jsString gv else "")
  let pat := toLowerStr (if jsTruthy v then jsString v else "")
  if regexValid (likeTranslate pat.data) then
    .ok (globMatch ((pat.data.length + 1) * (text.data.length + 1) + 1) pat.data text.data)
  else .error "SyntaxError: invalid regular expression"

/-- query-engine.js `evaluateCondition`.  `&&`/`||` short-circuit as in
the source; the `Except` layer records the one place execution can
throw (regex construction in LIKE); an unknown operator type is logged
and treated as satisfied. -/
def evaluateCondition (row : Row) : Cond → Except String Bool
  | .andC l r => do
    let a ← evaluateCondition row l
    if a then evaluateCondition row r else pure false
  | .orC l r => do
    let a ← evaluateCondition row l
    if a then pure true else evaluateCondition row r
  | .notC c => do
    let a ← evaluateCondition row c
    pure (!a)
  | .cmpC op col v =>
    if op == "=" || op == "==" then .ok (looseEq (getValue row col) v)
    else if op == "!=" || op == "<>" then .ok (!looseEq (getValue row col) v)
    else if op == ">" then .ok (0 < (compareValues (getValue row col) v).num)
    else if op == ">=" then .ok (0 ≤ (compareValues (getValue row col) v).num)
    else if op == "<" then .ok ((compareValues (getValue row col) v).num < 0)
    else if op == "<=" then .ok ((compareValues (getValue row col) v).num ≤ 0)
    else if op == "LIKE" then likeBranch row col v
    else if op == "IN" then .ok false
    else .ok true
  | .inC col vs =>
    .ok (vs.any (fun x => sameValueZero x (getValue row col)))

/-- `rows.filter(row => evaluateCondition(row, cond))`, propagating the
first thrown error. -/
def filterCond : List Row → Cond → Except String (List Row)
  | [], _ => .ok []
  | r :: rs, c => do
    let b ← evaluateCondition r c
    let rest ← filterCond rs c
    pure (if b then r :: rest else rest)

-- ============================
-- Select list, AST
-- ============================

/-- One SELECT-list entry: a plain column name (the string `*` plays the
wildcard), an aliased column `{column, alias}`, or an aggregate call
`{type, column, alias?}` (column `*` for `COUNT(*)`). -/
inductive ColSpec where
  | plain : String → ColSpec
  | aliased : String → String → ColSpec
  | agg : String → String → Option String → ColSpec
deriving DecidableEq

structure OrderItem where
  column : String
  direction : String
deriving DecidableEq

/-- A JOIN spec `{type, table, on: {left, right}}`. -/
structure Join where
  jtype : String
  table : String
  onLeft : String
  onRight : String
deriving DecidableEq

/-- The AST produced by `Parser.parse`. -/
structure Ast where
  columns : List ColSpec
  fromTable : Option String
  whereCond : Option Cond
  orderBy : Option (List OrderItem)
  groupByCols : Option (List String)
  joinSpec : Option Join
  limit : Option JSQ
deriving DecidableEq

def aggTypeNames : List String := ["COUNT", "SUM", "AVG", "MIN", "MAX"]

def isAggCol (c : ColSpec) : Bool :=
  match c with
  | .agg t _ _ => aggTypeNames.contains t
  | _ => false

/-- `col.alias || type + '_' + (col.column || '*')`. -/
def aggAlias (t c : String) (a : Option String) : String :=
  match a with
  | some s => if s == "" then t ++ "_" ++ (if c == "" then "*" else c) else s
  | none => t ++ "_" ++ (if c == "" then "*" else c)

-- ============================
-- Aggregation helpers (shared text of selectColumns and aggregate)
-- ============================

def countAgg (rows : List Row) (c : String) : Value :=
  .vNum ⟨(if c == "*" then rows.length
          else (rows.filter (fun r => decide (getValue r c ≠ .vNull))).length : Nat), 1⟩

def sumAgg (rows : List Row) (c : String) : JSQ :=
  rows.foldl (fun s r => numAdd s ((parseFloatV (getValue r c)).getD jsqZero)) jsqZero

def avgAgg (rows : List Row) (c : String) : JSQ :=
  if rows.length > 0 then numDiv (sumAgg rows c) (jsqOfNat rows.length) else jsqZero

/-- The element value `parseFloat(v) || v` then coerced by
`Math.min`/`Math.max` (`ToNumber`); `none` models NaN. -/
def elemNum (v : Value) : Option JSQ :=
  match parseFloatV v with
  | some q => if q.num = 0 then toNumberV v else some q
  | none => toNumberV v

/-- `MIN`: non-null values, numerically coerced; any value coercing to
NaN makes the result NaN; no values gives null. -/
def minAgg (rows : List Row) (c : String) : Value :=
  let vals := (rows.map (fun r => getValue r c)).filter (fun v => decide (v ≠ .vNull))
  if vals.isEmpty then .vNull
  else
    match vals.mapM elemNum with
    | some qs =>
      match qs with
      | [] => .vNull
      | q :: rest => .vNum (rest.foldl numMin q)
    | none => .vNaN

def maxAgg (rows : List Row) (c : String) : Value :=
  let vals := (rows.map (fun r => getValue r c)).filter (fun v => decide (v ≠ .vNull))
  if vals.isEmpty then .vNull
  else
    match vals.mapM elemNum with
    | some qs =>
      match qs with
      | [] => .vNull
      | q :: rest => .vNum (rest.foldl numMax q)
    | none => .vNaN

-- ============================
-- SELECT projection (query-engine.js selectColumns)
-- ============================

def projectRow (columns : List ColSpec) (row : Row) : Row :=
  columns.foldl (fun res col =>
    match col with
    | .plain name => setKey res name (getValue row name)
    | .aliased c a => setKey res (if a == "" then c else a) (getValue row c)
    | .agg t c a =>
      if t == "" then res
      else setKey res (aggAlias t c a) (getValue row (aggAlias t c a))) []

def wholeSetAggRow (rows : List Row) (columns : List ColSpec) : Row :=
  columns.foldl (fun res col =>
    match col with
    | .agg t c a =>
      let al := aggAlias t c a
      if t == "COUNT" then setKey res al (countAgg rows c)
      else if t == "SUM" then setKey res al (.vNum (sumAgg rows c))
      else if t == "AVG" then setKey res al (.vNum (avgAgg rows c))
      else if t == "MIN" then setKey res al (minAgg rows c)
      else if t == "MAX" then setKey res al (maxAgg rows c)
      else res
    | .plain name =>
      setKey res name (if rows.isEmpty then .vNull else getValue (rows.headD []) name)
    | .aliased c a =>
      setKey res (if a == "" then c else a)
        (if rows.isEmpty then .vNull else getValue (rows.headD []) c)) []

/-- query-engine.js `selectColumns`: `*` passes rows through; aggregates
without GROUP BY collapse everything to a single row; otherwise each
row is projected through the select list. -/
def selectColumns (rows : List Row) (columns : List ColSpec) (hasGroupBy : Bool) : List Row :=
  if columns = [ColSpec.plain "*"] then rows
  else if columns.any isAggCol && !hasGroupBy then [wholeSetAggRow rows columns]
  else rows.map (projectRow columns)

-- ============================
-- ORDER BY (query-engine.js sortRows)
-- ============================

/-- The multi-key comparator of `sortRows`: first key whose
`compareValues` is non-zero decides, negated under `DESC`. -/
def rowCmp (ob : List OrderItem) (a b : Row) : JSQ :=
  match ob with
  | [] => jsqZero
  | o :: rest =>
    let c := compareValues (getValue a o.column) (getValue b o.column)
    if c.num ≠ 0 then (if o.direction == "DESC" then numNeg c else c)
    else rowCmp rest a b

/-- Stable insertion: place `x` before the first element not strictly
below it. -/
def stableInsert (lt : Row → Row → Bool) (x : Row) : List Row → List Row
  | [] => [x]
  | y :: ys => if lt y x then y :: stableInsert lt x ys else x :: y :: ys

/-- A stable comparison sort, modelling `Array.prototype.sort` (which is
specified stable; for an inconsistent comparator the JS result order is
implementation-defined). -/
def stableSort (lt : Row → Row → Bool) : List Row → List Row
  | [] => []
  | x :: xs => stableInsert lt x (stableSort lt xs)

def sortRows (rows : List Row) (orderBy : List OrderItem) : List Row :=
  if orderBy.isEmpty then rows
  else stableSort (fun a b => (rowCmp orderBy a b).num < 0) rows

-- ============================
-- GROUP BY (query-engine.js getGroupKey, aggregate, groupBy)
-- ============================

/-- `groupBy.map(col => String(getValue(row, col) || '')).join('::')`. -/
def getGroupKey (row : Row) (groupByCols : List String) : String :=
  String.intercalate "::"
    (groupByCols.map (fun c =>
      let v := getValue row c
      if jsTruthy v then jsString v else ""))

/-- One step of `aggregate`'s select-list loop: only aggregate entries
(with a truthy type) write; the key written is the aggregate's alias. -/
def aggStep (group : List Row) (r : Row) (col : ColSpec) : Row :=
  match col with
  | .agg t c a =>
    let al := aggAlias t c a
    if t == "COUNT" then setKey r al (countAgg group c)
    else if t == "SUM" then setKey r al (.vNum (sumAgg group c))
    else if t == "AVG" then setKey r al (.vNum (avgAgg group c))
    else if t == "MIN" then setKey r al (minAgg group c)
    else if t == "MAX" then setKey r al (maxAgg group c)
    else r
  | _ => r

/-- query-engine.js `aggregate`: the group-by columns take the first
row's values, then each aggregate select entry writes its computed
value. -/
def aggregate (group : List Row) (groupByColumns : List String) (sels : List ColSpec) : Row :=
  let base := groupByColumns.foldl
    (fun r c => setKey r c (getValue (group.headD []) c)) ([] : Row)
  sels.foldl (aggStep group) base

/-- Insertion into the insertion-ordered map of groups (JS `Map`
preserves first-seen key order). -/
def insertGroup (gs : List (String × List Row)) (k : String) (row : Row) :
    List (String × List Row) :=
  if gs.any (fun p => p.1 == k) then
    gs.map (fun p => if p.1 == k then (k, p.2 ++ [row]) else p)
  else gs ++ [(k, [row])]

/-- query-engine.js `groupBy`: bucket rows by group key in first-seen
order, then aggregate each bucket. -/
def groupByRows (rows : List Row) (groupByCols : List String) (columns : List ColSpec) :
    List Row :=
  if groupByCols.isEmpty then rows
  else
    let groups := rows.foldl (fun gs row => insertGroup gs (getGroupKey row groupByCols) row) []
    groups.map (fun p => aggregate p.2 groupByCols columns)

-- ============================
-- JOIN (query-engine.js performJoin)
-- ============================

def stripTable (s : String) : String :=
  if containsDot s then (splitOnDot s).getD 1 "" else s

/-- The rows a single primary row contributes under an INNER/LEFT join. -/
def joinRow (rightRows : List Row) (js : Join) (leftRow : Row) : List Row :=
  let leftValue := getValue leftRow (stripTable js.onLeft)
  let found := rightRows.filter
    (fun rightRow => looseEq leftValue (getValue rightRow (stripTable js.onRight)))
  if !found.isEmpty then found.map (fun m => jsMerge leftRow m)
  else if js.jtype == "LEFT" then
    let rightEmpty : Row :=
      match rightRows.headD [] with
      | r0 => r0.map (fun p => (p.1, Value.vNull))
    [jsMerge leftRow rightEmpty]
  else []

/-- query-engine.js `performJoin`: only the `INNER` and `LEFT` branches
exist; any other join type leaves the result accumulator empty. -/
def performJoin (leftRows rightRows : List Row) (joinSpec : Option Join) : List Row :=
  match joinSpec with
  | none => leftRows
  | some js =>
    if js.jtype == "INNER" || js.jtype == "LEFT" then
      leftRows.flatMap (joinRow rightRows js)
    else []

-- ============================
-- LIMIT and the pipeline (query-engine.js executeQuery)
-- ============================

/-- `rows.slice(0, n)` with a JS-number bound: the bound is truncated
toward zero, and a negative bound counts from the end. -/
def jsSlice0 (n : JSQ) (l : List Row) : List Row :=
  let e : Int := Int.tdiv n.num n.den
  if e < 0 then l.take (max ((l.length : Int) + e) 0).toNat
  else l.take e.toNat

/-- query-engine.js `executeQuery`: empty input short-circuits; then
join (only when a join spec and secondary rows are both supplied),
filter, group-or-project, sort, and a limit applied only when the limit
value is truthy (so `LIMIT 0` does not truncate). -/
def executeQuery (ast : Ast) (data : List Row) (options : Option (List Row)) :
    Except String (List Row) :=
  if data.isEmpty then .ok []
  else
    let rows := data
    let rows :=
      match ast.joinSpec, options with
      | some _, some rightData => performJoin rows rightData ast.joinSpec
      | _, _ => rows
    (match ast.whereCond with
      | some c => filterCond rows c
      | none => .ok rows).map (fun rows =>
        let rows :=
          match ast.groupByCols with
          | some g =>
            if g.length > 0 then groupByRows rows g ast.columns
            else selectColumns rows ast.columns false
          | none => selectColumns rows ast.columns false
        let rows :=
          match ast.orderBy with
          | some ob => sortRows rows ob
          | none => rows
        match ast.limit with
        | some n => if n.num ≠ 0 then jsSlice0 n rows else rows
        | none => rows)

-- ============================
-- LEXER (parser.js Lexer)
-- ============================

inductive TokType where
  | keyword
  | identifier
  | strlit
  | number
  | operator
  | punctuation
  | endOfInput
deriving DecidableEq

/-- A token `{type, value}`; the value is a string for every type the
lexer produces except NUMBER (a JS number) and EOF (null). -/
inductive Token where
  | kw : String → Token
  | id : String → Token
  | str : String → Token
  | num : JSQ → Token
  | op : String → Token
  | punct : String → Token
  | eof : Token
deriving DecidableEq

def Token.ttype : Token → TokType
  | .kw _ => .keyword
  | .id _ => .identifier
  | .str _ => .strlit
  | .num _ => .number
  | .op _ => .operator
  | .punct _ => .punctuation
  | .eof => .endOfInput

/-- `token.value === s` for a string `s` (a NUMBER's value is a number
and EOF's is null, so neither ever equals a string). -/
def Token.valIs : Token → String → Bool
  | .kw v, s => v == s
  | .id v, s => v == s
  | .str v, s => v == s
  | .op v, s => v == s
  | .punct v, s => v == s
  | .num _, _ => false
  | .eof, _ => false

/-- The string payload of a token (every place the parser reads
`.value` it has already checked a string-valued type). -/
def Token.strVal : Token → String
  | .kw v => v
  | .id v => v
  | .str v => v
  | .op v => v
  | .punct v => v
  | .num _ => ""
  | .eof => ""

def Token.numVal : Token → JSQ
  | .num q => q
  | _ => jsqZero

def KEYWORDS : List String :=
  ["SELECT", "FROM", "WHERE", "ORDER", "BY", "GROUP", "JOIN", "ON", "INNER", "LEFT", "RIGHT",
   "AND", "OR", "NOT", "IN", "LIKE", "AS", "ASC", "DESC", "LIMIT",
   "COUNT", "SUM", "AVG", "MIN", "MAX"]

def isWordDot (c : Char) : Bool :=
  c.isAlpha || c.isDigit || c == '_' || c == '.'

def jsToUpperChar (c : Char) : Char :=
  if 'a' ≤ c && c ≤ 'z' then Char.ofNat (c.toNat - 32) else c

def toUpperStr (s : String) : String :=
  String.mk (s.data.map jsToUpperChar)

/-- `Lexer.readString` after the opening quote: `\` escapes the next
character; tolerant of a missing closing quote.  Returns the literal's
value and the remaining input. -/
def readStringLit (quote : Char) : List Char → String × List Char
  | [] => ("", [])
  | c :: cs =>
    if c == quote then ("", cs)
    else if c == '\\' then
      match cs with
      | [] => ("", [])
      | d :: ds =>
        let (v, rest) := readStringLit quote ds
        (String.mk (d :: v.data), rest)
    else
      let (v, rest) := readStringLit quote cs
      (String.mk (c :: v.data), rest)

/-- `Lexer.readNumber`: digits and dots, then `parseFloat` (which always
succeeds here because the first character is a digit). -/
def readNumberTok (cs : List Char) : JSQ × List Char :=
  let ds := cs.takeWhile (fun c => c.isDigit || c == '.')
  ((parseFloatChars ds).getD jsqZero, cs.dropWhile (fun c => c.isDigit || c == '.'))

def readIdentifierTok (cs : List Char) : String × List Char :=
  (String.mk (cs.takeWhile isWordDot), cs.dropWhile isWordDot)

/-- `Lexer.readOperator`: one character, folding a second in only when
the FIRST character is one of `=`, `>`, `<` (so `!=` never fuses: the
`op === '!'` disjunct of the source's inner test is dead). -/
def readOperatorTok (cs : List Char) : String × List Char :=
  match cs with
  | [] => ("", [])
  | c :: rest =>
    match rest with
    | [] => (String.mk [c], [])
    | n :: rest2 =>
      if (c == '=' || c == '>' || c == '<') &&
         ((c == '<' && n == '>') || (c == '!' && n == '=') || (c == '=' && n == '=') ||
          (c == '>' && n == '=') || (c == '<' && n == '=')) then
        (String.mk [c, n], rest2)
      else (String.mk [c], n :: rest2)

def isOpStart (c : Char) : Bool :=
  c == '=' || c == '<' || c == '>' || c == '!'

def isPunctChar (c : Char) : Bool :=
  c == '(' || c == ')' || c == ',' || c == ';'

/-- `Lexer.nextToken` over the remaining input.  Note the final branch:
a character that is in none of the classes makes `readIdentifier`
return the empty identifier WITHOUT consuming anything — the source of
the tokenizer's non-termination. -/
def nextToken (input : List Char) : Token × List Char :=
  let cs := input.dropWhile Char.isWhitespace
  match cs with
  | [] => (.eof, [])
  | c :: rest =>
    if c == '"' || c == Char.ofNat 39 then
      let (v, rest2) := readStringLit c rest
      (.str v, rest2)
    else if c.isDigit then
      let (q, rest2) := readNumberTok (c :: rest)
      (.num q, rest2)
    else if isOpStart c then
      let (s, rest2) := readOperatorTok (c :: rest)
      (.op s, rest2)
    else if isPunctChar c then
      (.punct (String.mk [c]), rest)
    else
      let (idv, rest2) := readIdentifierTok (c :: rest)
      let upper := toUpperStr idv
      if KEYWORDS.contains upper then (.kw upper, rest2)
      else (.id idv, rest2)

/-- `Lexer.tokenize`, fuelled because the source's loop need not make
progress (`none` = the JS loop runs forever). -/
def tokenizeF : Nat → List Char → Option (List Token)
  | 0, _ => none
  | fuel + 1, cs =>
    let (t, rest) := nextToken cs
    if t == .eof then some [Token.eof]
    else
      match tokenizeF fuel rest with
      | some ts => some (t :: ts)
      | none => none

/-- The constructor trims the input. -/
def mkLexer (s : String) : List Char :=
  ((s.data.dropWhile Char.isWhitespace).reverse.dropWhile Char.isWhitespace).reverse

-- ============================
-- PARSER (parser.js Parser)
-- ============================

/-- `this.currentToken`: past the end reads as EOF. -/
def cur (ts : List Token) (pos : Nat) : Token :=
  ts.getD pos .eof

/-- `expect(type)`. -/
def expectT (ts : List Token) (pos : Nat) (tt : TokType) : Except String (Token × Nat) :=
  if (cur ts pos).ttype == tt then .ok (cur ts pos, pos + 1)
  else .error "Expected other token type"

/-- `expect(type, value)`. -/
def expectTV (ts : List Token) (pos : Nat) (tt : TokType) (v : String) :
    Except String (Token × Nat) :=
  if (cur ts pos).ttype != tt then .error "Expected other token type"
  else if !(cur ts pos).valIs v then .error "Expected other token value"
  else .ok (cur ts pos, pos + 1)

/-- `Parser.parseColumn`. -/
def parseColumn (ts : List Token) (pos : Nat) : Except String (ColSpec × Nat) :=
  let t := cur ts pos
  if t.ttype == .keyword &&
     (t.valIs "COUNT" || t.valIs "SUM" || t.valIs "AVG" || t.valIs "MIN" || t.valIs "MAX") then do
    let aggType := t.strVal
    let pos := pos + 1
    let (_, pos) ← expectTV ts pos .punctuation "("
    let (colName, pos) ←
      if (cur ts pos).valIs "*" then
        pure ("*", pos + 1)
      else do
        let (ct, pos) ← expectT ts pos .identifier
        pure (ct.strVal, pos)
    let (_, pos) ← expectTV ts pos .punctuation ")"
    if (cur ts pos).valIs "AS" then do
      let (at', pos) ← expectT ts (pos + 1) .identifier
      .ok (.agg aggType colName (some at'.strVal), pos)
    else
      .ok (.agg aggType colName none, pos)
  else do
    let (ct, pos) ← expectT ts pos .identifier
    let (colName, pos) ←
      if (cur ts pos).valIs "." then do
        let (ct2, pos) ← expectT ts (pos + 1) .identifier
        pure (ct.strVal ++ "." ++ ct2.strVal, pos)
      else pure (ct.strVal, pos)
    if (cur ts pos).valIs "AS" then do
      let (at', pos) ← expectT ts (pos + 1) .identifier
      .ok (.aliased colName at'.strVal, pos)
    else
      .ok (.plain colName, pos)

/-- The comma loop of `parseSelect`. -/
def parseSelectLoop : Nat → List Token → Nat → Except String (List ColSpec × Nat)
  | 0, _, _ => .error "fuel"
  | fuel + 1, ts, pos => do
    let (c, pos) ← parseColumn ts pos
    if (cur ts pos).valIs "," then do
      let (rest, pos2) ← parseSelectLoop fuel ts (pos + 1)
      .ok (c :: rest, pos2)
    else .ok ([c], pos)

/-- `Parser.parseSelect`. -/
def parseSelect (fuel : Nat) (ts : List Token) (pos : Nat) :
    Except String (List ColSpec × Nat) := do
  let (_, pos) ← expectTV ts pos .keyword "SELECT"
  if (cur ts pos).valIs "*" then .ok ([.plain "*"], pos + 1)
  else parseSelectLoop fuel ts pos

/-- `Parser.parseFrom`: absent (without consuming) unless the current
token's value is `FROM`. -/
def parseFrom (ts : List Token) (pos : Nat) : Except String (Option String × Nat) :=
  if (cur ts pos).valIs "FROM" then do
    let (t, pos) ← expectT ts (pos + 1) .identifier
    .ok (some t.strVal, pos)
  else .ok (none, pos)

/-- `Parser.parseColumnIdentifier`. -/
def parseColumnIdentifier (ts : List Token) (pos : Nat) : Except String (String × Nat) := do
  let (t, pos) ← expectT ts pos .identifier
  if (cur ts pos).valIs "." then do
    let (t2, pos2) ← expectT ts (pos + 1) .identifier
    .ok (t.strVal ++ "." ++ t2.strVal, pos2)
  else .ok (t.strVal, pos)

/-- `Parser.parseValue`. -/
def parseValue (ts : List Token) (pos : Nat) : Except String (Value × Nat) :=
  match cur ts pos with
  | .str s => .ok (.vStr s, pos + 1)
  | .num q => .ok (.vNum q, pos + 1)
  | .id s => .ok (.vStr s, pos + 1)
  | _ => .error "Unexpected token in value"

def mkLogical (op : String) (l r : Cond) : Cond :=
  if op == "AND" then .andC l r else .orC l r

mutual

/-- `Parser.parseCondition`: a term, then the AND/OR loop. -/
def parseCondition : Nat → List Token → Nat → Except String (Cond × Nat)
  | 0, _, _ => .error "fuel"
  | fuel + 1, ts, pos => do
    let (left, pos) ← parseConditionTerm fuel ts pos
    parseCondLoop fuel ts left pos

def parseCondLoop : Nat → List Token → Cond → Nat → Except String (Cond × Nat)
  | 0, _, _, _ => .error "fuel"
  | fuel + 1, ts, left, pos =>
    if (cur ts pos).valIs "AND" || (cur ts pos).valIs "OR" then do
      let op := (cur ts pos).strVal
      let (right, pos2) ← parseConditionTerm fuel ts (pos + 1)
      parseCondLoop fuel ts (mkLogical op left right) pos2
    else .ok (left, pos)

/-- The value-list loop of the IN special case
(`while (currentToken.value !== ')')`). -/
def parseInVals : Nat → List Token → Nat → Except String (List Value × Nat)
  | 0, _, _ => .error "fuel"
  | fuel + 1, ts, pos =>
    if (cur ts pos).valIs ")" then .ok ([], pos)
    else do
      let (v, pos) ← parseValue ts pos
      let pos := if (cur ts pos).valIs "," then pos + 1 else pos
      let (rest, pos2) ← parseInVals fuel ts pos
      .ok (v :: rest, pos2)

/-- `Parser.parseConditionTerm`: NOT, parenthesised condition, or
`column OPERATOR value`, with the IN list special case. -/
def parseConditionTerm : Nat → List Token → Nat → Except String (Cond × Nat)
  | 0, _, _ => .error "fuel"
  | fuel + 1, ts, pos =>
    if (cur ts pos).valIs "NOT" then do
      let (c, pos2) ← parseConditionTerm fuel ts (pos + 1)
      .ok (.notC c, pos2)
    else if (cur ts pos).valIs "(" then do
      let (c, pos2) ← parseCondition fuel ts (pos + 1)
      let (_, pos3) ← expectTV ts pos2 .punctuation ")"
      .ok (c, pos3)
    else do
      let (column, pos) ← parseColumnIdentifier ts pos
      let (opTok, pos) ← expectT ts pos .operator
      let op := opTok.strVal
      let (v, pos) ← parseValue ts pos
      if op == "IN" && (cur ts pos).valIs "(" then do
        let (vs, pos2) ← parseInVals fuel ts (pos + 1)
        let (_, pos3) ← expectTV ts pos2 .punctuation ")"
        .ok (.inC column vs, pos3)
      else .ok (.cmpC op column v, pos)

end

/-- `Parser.parseWhere`: absent (without consuming) unless the current
token's value is `WHERE`. -/
def parseWhere (fuel : Nat) (ts : List Token) (pos : Nat) :
    Except String (Option Cond × Nat) :=
  if (cur ts pos).valIs "WHERE" then do
    let (c, pos2) ← parseCondition fuel ts (pos + 1)
    .ok (some c, pos2)
  else .ok (none, pos)

def parseOrderLoop : Nat → List Token → Nat → Except String (List OrderItem × Nat)
  | 0, _, _ => .error "fuel"
  | fuel + 1, ts, pos => do
    let (col, pos) ← parseColumnIdentifier ts pos
    let (dir, pos) :=
      if (cur ts pos).valIs "ASC" || (cur ts pos).valIs "DESC" then
        ((cur ts pos).strVal, pos + 1)
      else ("ASC", pos)
    if (cur ts pos).valIs "," then do
      let (rest, pos2) ← parseOrderLoop fuel ts (pos + 1)
      .ok (⟨col, dir⟩ :: rest, pos2)
    else .ok ([⟨col, dir⟩], pos)

/-- `Parser.parseOrderBy`: absent (without consuming) unless the current
token's value is `ORDER`. -/
def parseOrderBy (fuel : Nat) (ts : List Token) (pos : Nat) :
    Except String (Option (List OrderItem) × Nat) :=
  if (cur ts pos).valIs "ORDER" then do
    let (_, pos) ← expectTV ts pos .keyword "ORDER"
    let (_, pos) ← expectTV ts pos .keyword "BY"
    let (items, pos) ← parseOrderLoop fuel ts pos
    .ok (some items, pos)
  else .ok (none, pos)

def parseGroupLoop : Nat → List Token → Nat → Except String (List String × Nat)
  | 0, _, _ => .error "fuel"
  | fuel + 1, ts, pos => do
    let (col, pos) ← parseColumnIdentifier ts pos
    if (cur ts pos).valIs "," then do
      let (rest, pos2) ← parseGroupLoop fuel ts (pos + 1)
      .ok (col :: rest, pos2)
    else .ok ([col], pos)

/-- `Parser.parseGroupBy`: absent (without consuming) unless the current
token's value is `GROUP`. -/
def parseGroupBy (fuel : Nat) (ts : List Token) (pos : Nat) :
    Except String (Option (List String) × Nat) :=
  if (cur ts pos).valIs "GROUP" then do
    let (_, pos) ← expectTV ts pos .keyword "GROUP"
    let (_, pos) ← expectTV ts pos .keyword "BY"
    let (cols, pos) ← parseGroupLoop fuel ts pos
    .ok (some cols, pos)
  else .ok (none, pos)

/-- `Parser.parseJoin`: absent (without consuming) unless the current
token starts a join clause. -/
def parseJoin (ts : List Token) (pos : Nat) : Except String (Option Join × Nat) :=
  if (cur ts pos).valIs "JOIN" || (cur ts pos).valIs "INNER" ||
     (cur ts pos).valIs "LEFT" || (cur ts pos).valIs "RIGHT" then
    let (jt, pos) :=
      if (cur ts pos).valIs "INNER" || (cur ts pos).valIs "LEFT" ||
         (cur ts pos).valIs "RIGHT" then
        ((cur ts pos).strVal, pos + 1)
      else ("INNER", pos)
    do
    let (_, pos) ← expectTV ts pos .keyword "JOIN"
    let (tbl, pos) ← expectT ts pos .identifier
    let (_, pos) ← expectTV ts pos .keyword "ON"
    let (l, pos) ← parseColumnIdentifier ts pos
    let (_, pos) ← expectTV ts pos .operator "="
    let (r, pos) ← parseColumnIdentifier ts pos
    .ok (some ⟨jt, tbl.strVal, l, r⟩, pos)
  else .ok (none, pos)

/-- `Parser.parseLimit`: absent (without consuming) unless the current
token's value is `LIMIT`. -/
def parseLimit (ts : List Token) (pos : Nat) : Except String (Option JSQ × Nat) :=
  if (cur ts pos).valIs "LIMIT" then do
    let (t, pos) ← expectT ts (pos + 1) .number
    .ok (some t.numVal, pos)
  else .ok (none, pos)

/-- `Parser.parse`: the clause parsers run in the fixed order FROM,
WHERE, ORDER BY, GROUP BY, JOIN, LIMIT; no end-of-input check follows,
so trailing unconsumed tokens are ignored. -/
def parse (fuel : Nat) (ts : List Token) (pos : Nat) : Except String (Ast × Nat) := do
  let (cols, pos) ← parseSelect fuel ts pos
  let (f, pos) ← parseFrom ts pos
  let (w, pos) ← parseWhere fuel ts pos
  let (ob, pos) ← parseOrderBy fuel ts pos
  let (gb, pos) ← parseGroupBy fuel ts pos
  let (j, pos) ← parseJoin ts pos
  let (lim, pos) ← parseLimit ts pos
  .ok ({ columns := cols, fromTable := f, whereCond := w, orderBy := ob,
         groupByCols := gb, joinSpec := j, limit := lim }, pos)

/-- `parseQuery`: tokenize (fuelled; `none` = the tokenizer loops
forever) then parse, re-wrapping any parse error. -/
def parseQueryF (fuel : Nat) (q : String) : Option (Except String (Ast × Nat)) :=
  (tokenizeF fuel (mkLexer q)).map
    (fun ts => (parse fuel ts 0).mapError (fun m => "Parse error: " ++ m))

-- ============================
-- Helper lemmas
-- ============================

deriving instance DecidableEq for Except

@[simp]
theorem except_bind_ok {ε α β : Type} (v : α) (f : α → Except ε β) :
    (Except.ok v >>= f : Except ε β) = f v := rfl

@[simp]
theorem except_bind_err {ε α β : Type} (e : ε) (f : α → Except ε β) :
    (Except.error e >>= f : Except ε β) = Except.error e := rfl

@[simp]
theorem except_pure_eq {ε α : Type} (v : α) : (pure v : Except ε α) = Except.ok v := rfl

@[simp]
theorem except_map_ok {ε α β : Type} (f : α → β) (v : α) :
    (Except.ok v : Except ε α).map f = Except.ok (f v) := rfl

@[simp]
theorem except_map_err {ε α β : Type} (f : α → β) (e : ε) :
    (Except.error e : Except ε α).map f = Except.error e := rfl

theorem stableInsert_perm (lt : Row → Row → Bool) (x : Row) (l : List Row) :
    List.Perm (stableInsert lt x l) (x :: l) := by
  induction l with
  | nil => simp [stableInsert]
  | cons y ys ih =>
    simp only [stableInsert]
    split
    · exact ((ih.cons y).trans (List.Perm.swap x y ys))
    · exact List.Perm.refl _

theorem stableSort_perm (lt : Row → Row → Bool) (l : List Row) :
    List.Perm (stableSort lt l) l := by
  induction l with
  | nil => exact List.Perm.refl _
  | cons x xs ih =>
    exact (stableInsert_perm lt x (stableSort lt xs)).trans (ih.cons x)

-- ============================
-- Claim theorems
-- ============================

/-- Concrete data for the claim about RIGHT joins. -/
def rowA : Row := [("a", .vNum ⟨1, 1⟩)]

def rowB : Row := [("b", .vNum ⟨2, 1⟩)]

def joinRight : Join := ⟨"RIGHT", "t2", "id", "id"⟩

def astRight : Ast :=
  { columns := [.plain "*"], fromTable := some "t", whereCond := none, orderBy := none,
    groupByCols := none, joinSpec := some joinRight, limit := none }

/-- C2, counterexample: with a RIGHT join and secondary rows supplied,
the join stage returns the empty row set — not the unjoined primary
rows — and the whole query returns no rows. -/
theorem spec_c2_cex :
    performJoin [rowA] [rowB] (some joinRight) = [] ∧
    performJoin [rowA] [rowB] (some joinRight) ≠ [rowA] ∧
    executeQuery astRight [rowA] (some [rowB]) = .ok [] ∧
    executeQuery astRight [rowA] (some [rowB]) ≠ .ok [rowA] := by
  refine ⟨by decide, by decide, by decide, by decide⟩

/-- C2, amended: for every primary row set, secondary row set and join
spec of kind RIGHT, the executor's join function (which has branches
only for INNER and LEFT) returns its empty accumulator, so the join
stage yields the empty row set rather than the unjoined primary rows;
it does not raise. -/
theorem spec_c2 (l r : List Row) (j : Join) (h : j.jtype = "RIGHT") :
    performJoin l r (some j) = [] := by
  have hb : (("RIGHT" : String) == "INNER" || ("RIGHT" : String) == "LEFT") = false := by
    decide
  simp [performJoin, h, hb]

theorem spec_c2_witness : performJoin [rowA] [rowB] (some joinRight) = [] :=
  spec_c2 [rowA] [rowB] joinRight rfl

/-- Concrete data for the group-key collapse claim. -/
def rowG0 : Row := [("g", .vNum ⟨0, 1⟩)]

def rowGN : Row := [("g", .vNull)]

/-- C10: the group key stringifies falsy values (here the number 0 and
null) to the empty string, so two rows whose group-by values differ get
the same key and collapse into a single result row. -/
theorem spec_c10 :
    getValue rowG0 "g" ≠ getValue rowGN "g" ∧
    getGroupKey rowG0 ["g"] = "" ∧
    getGroupKey rowGN ["g"] = "" ∧
    getGroupKey rowG0 ["g"] = getGroupKey rowGN ["g"] ∧
    (groupByRows [rowG0, rowGN] ["g"] [.agg "COUNT" "*" (some "c")]).length = 1 := by
  refine ⟨by decide, by decide, by decide, by decide, by decide⟩

/-- Concrete data for the IN-condition claim. -/
def rowIn : Row := [("a", .vStr "5")]

def condIn : Cond := .inC "a" [.vNum ⟨5, 1⟩]

/-- C8, counterexample: the string "5" loosely equals the number 5, yet
the IN condition with literal list [5] evaluates to false, because
`Array.prototype.includes` compares strictly (SameValueZero), not
loosely. -/
theorem spec_c8_cex :
    looseEq (getValue rowIn "a") (.vNum ⟨5, 1⟩) = true ∧
    evaluateCondition rowIn condIn = .ok false := by
  refine ⟨by decide, by decide⟩

/-- C8, amended: an IN condition evaluates true iff some element of the
literal list is strictly equal (SameValueZero: same scalar type and
value, so the number 5 does NOT match the string "5") to the row's
column value. -/
theorem spec_c8 (row : Row) (col : String) (vs : List Value) :
    evaluateCondition row (.inC col vs) = .ok true ↔
      ∃ v ∈ vs, sameValueZero v (getValue row col) = true := by
  simp [evaluateCondition, List.any_eq_true]

theorem spec_c8_witness :
    evaluateCondition rowIn (.inC "a" [.vStr "5"]) = .ok true ↔
      ∃ v ∈ [Value.vStr "5"], sameValueZero v (getValue rowIn "a") = true :=
  spec_c8 rowIn "a" [.vStr "5"]

theorem jsSlice0_nil (n : JSQ) : jsSlice0 n [] = [] := by
  simp [jsSlice0]

theorem jsMerge_nil (a : Row) : jsMerge a [] = a := by
  simp [jsMerge, rowLookup]

theorem joinRow_left_unmatched (r : List Row) (js : Join) (leftRow : Row)
    (h : js.jtype = "LEFT")
    (hfil : r.filter (fun rr => looseEq (getValue leftRow (stripTable js.onLeft))
      (getValue rr (stripTable js.onRight))) = []) :
    joinRow r js leftRow =
      [jsMerge leftRow ((r.headD []).map (fun p => (p.1, Value.vNull)))] := by
  simp [joinRow, hfil, h]

theorem except_map_if_limit (X : Except String (List Row)) (A : List Row → List Row)
    (n : JSQ) (hn : n.num ≠ 0) :
    X.map (fun rows => if n.num ≠ 0 then jsSlice0 n (A rows) else A rows) =
      (X.map A).map (jsSlice0 n) := by
  cases X <;> simp [hn]

/-- Concrete data for the LIMIT claim. -/
def astLimit0 : Ast :=
  { columns := [.plain "*"], fromTable := none, whereCond := none, orderBy := none,
    groupByCols := none, joinSpec := none, limit := some ⟨0, 1⟩ }

/-- C9, counterexample: `LIMIT 0` does not truncate — the limit value 0
is falsy, the slice is skipped, and all rows come back instead of the
claimed first 0 rows. -/
theorem spec_c9_cex :
    executeQuery astLimit0 [rowA] none = .ok [rowA] ∧
    executeQuery astLimit0 [rowA] none ≠ .ok (([rowA] : List Row).take 0) := by
  refine ⟨by decide, by decide⟩

/-- C9, amended: when the AST's limit is a nonzero (truthy) value N, the
result is the post-sort row sequence truncated as by `slice(0, N)` —
for the parser's non-negative numeric literals, its first ⌊N⌋ rows —
with no validation that N ≥ 0; a limit of 0 is falsy and truncates
nothing. -/
theorem spec_c9 (ast : Ast) (data : List Row) (opts : Option (List Row)) (n : JSQ)
    (h : ast.limit = some n) (hn : n.num ≠ 0) :
    executeQuery ast data opts =
      (executeQuery { ast with limit := none } data opts).map (jsSlice0 n) := by
  obtain ⟨cols, f, w, ob, gb, j, lim⟩ := ast
  have h' : lim = some n := h
  subst h'
  by_cases hd : data.isEmpty
  · simp [executeQuery, hd, jsSlice0_nil]
  · cases w with
    | none => simp [executeQuery, hd, hn]
    | some c =>
      clear h
      simp only [executeQuery, hd, if_false, Bool.false_eq_true]
      exact except_map_if_limit _ _ n hn

theorem spec_c9_witness :
    executeQuery { astLimit0 with limit := some ⟨2, 1⟩ }
        [rowA, rowB, rowG0, rowGN, rowIn] none =
      (executeQuery { astLimit0 with limit := none }
        [rowA, rowB, rowG0, rowGN, rowIn] none).map (jsSlice0 ⟨2, 1⟩) :=
  spec_c9 { astLimit0 with limit := some ⟨2, 1⟩ } [rowA, rowB, rowG0, rowGN, rowIn]
    none ⟨2, 1⟩ rfl (by decide)

/-- C7: under a LEFT join, a primary row with zero matching secondary
rows contributes exactly one output row — the spread-merge of the
primary row with an all-null row keyed by the first secondary row's
keys, secondary keys overwriting primary keys on collision; with no
secondary rows at all no null columns are added; and the pipeline is
the per-primary-row expansion.  Checked on the spec's example, where
the unmatched row has x = null. -/
theorem spec_c7 :
    (∀ (l r : List Row) (js : Join), js.jtype = "LEFT" →
      performJoin l r (some js) = l.flatMap (joinRow r js)) ∧
    (∀ (r : List Row) (js : Join) (leftRow : Row), js.jtype = "LEFT" →
      r.filter (fun rr => looseEq (getValue leftRow (stripTable js.onLeft))
        (getValue rr (stripTable js.onRight))) = [] →
      joinRow r js leftRow =
        [jsMerge leftRow ((r.headD []).map (fun p => (p.1, Value.vNull)))]) ∧
    (∀ (js : Join) (leftRow : Row), js.jtype = "LEFT" →
      joinRow [] js leftRow = [leftRow]) ∧
    performJoin [[("id", .vNum ⟨1, 1⟩)], [("id", .vNum ⟨2, 1⟩)]]
        [[("id", .vNum ⟨1, 1⟩), ("x", .vStr "A")]] (some ⟨"LEFT", "t2", "id", "id"⟩) =
      [[("id", .vNum ⟨1, 1⟩), ("x", .vStr "A")], [("id", .vNull), ("x", .vNull)]] ∧
    getValue [("id", Value.vNull), ("x", Value.vNull)] "x" = .vNull := by
  have hLeft : (("LEFT" : String) == "INNER" || ("LEFT" : String) == "LEFT") = true := by
    decide
  refine ⟨?_, ?_, ?_, by decide, by decide⟩
  · intro l r js h
    simp [performJoin, h, hLeft]
  · intro r js leftRow h hfil
    exact joinRow_left_unmatched r js leftRow h hfil
  · intro js leftRow h
    have h3 := joinRow_left_unmatched [] js leftRow h (by simp)
    simpa [jsMerge_nil] using h3

theorem spec_c7_witness :
    joinRow [[("id", .vNum ⟨1, 1⟩), ("x", .vStr "A")]] ⟨"LEFT", "t2", "id", "id"⟩
        [("id", .vNum ⟨2, 1⟩)] =
      [jsMerge [("id", .vNum ⟨2, 1⟩)]
        (([[("id", Value.vNum ⟨1, 1⟩), ("x", Value.vStr "A")]].headD []).map
          (fun p => (p.1, Value.vNull)))] :=
  spec_c7.2.1 [[("id", .vNum ⟨1, 1⟩), ("x", .vStr "A")]] ⟨"LEFT", "t2", "id", "id"⟩
    [("id", .vNum ⟨2, 1⟩)] rfl (by decide)

/-- C1: each optional-clause parser returns "absent" at the same
position, without consuming and without failing, whenever the current
token does not start its clause; `parse` calls them in the fixed order
FROM, WHERE, ORDER BY, GROUP BY, JOIN, LIMIT and never asserts
end-of-input — so a query with GROUP BY textually before ORDER BY
parses with its ORDER BY treated as absent and its tokens (4 of the 11)
left unconsumed, not an error. -/
theorem spec_c1 :
    (∀ (ts : List Token) (pos : Nat), (cur ts pos).valIs "FROM" = false →
      parseFrom ts pos = .ok (none, pos)) ∧
    (∀ (fuel : Nat) (ts : List Token) (pos : Nat), (cur ts pos).valIs "WHERE" = false →
      parseWhere fuel ts pos = .ok (none, pos)) ∧
    (∀ (fuel : Nat) (ts : List Token) (pos : Nat), (cur ts pos).valIs "ORDER" = false →
      parseOrderBy fuel ts pos = .ok (none, pos)) ∧
    (∀ (fuel : Nat) (ts : List Token) (pos : Nat), (cur ts pos).valIs "GROUP" = false →
      parseGroupBy fuel ts pos = .ok (none, pos)) ∧
    (∀ (ts : List Token) (pos : Nat),
      (cur ts pos).valIs "JOIN" = false → (cur ts pos).valIs "INNER" = false →
      (cur ts pos).valIs "LEFT" = false → (cur ts pos).valIs "RIGHT" = false →
      parseJoin ts pos = .ok (none, pos)) ∧
    (∀ (ts : List Token) (pos : Nat), (cur ts pos).valIs "LIMIT" = false →
      parseLimit ts pos = .ok (none, pos)) ∧
    (tokenizeF 100 (mkLexer "SELECT a FROM t GROUP BY g ORDER BY b")).map List.length =
      some 11 ∧
    parseQueryF 100 "SELECT a FROM t GROUP BY g ORDER BY b" =
      some (.ok ({ columns := [.plain "a"], fromTable := some "t", whereCond := none,
                   orderBy := none, groupByCols := some ["g"], joinSpec := none,
                   limit := none }, 7)) := by
  refine ⟨?_, ?_, ?_, ?_, ?_, ?_, by decide, by decide⟩
  · intro ts pos h; simp [parseFrom, h]
  · intro fuel ts pos h; simp [parseWhere, h]
  · intro fuel ts pos h; simp [parseOrderBy, h]
  · intro fuel ts pos h; simp [parseGroupBy, h]
  · intro ts pos h1 h2 h3 h4; simp [parseJoin, h1, h2, h3, h4]
  · intro ts pos h; simp [parseLimit, h]

theorem spec_c1_witness :
    parseOrderBy 5 [Token.kw "GROUP"] 0 = .ok (none, 0) :=
  spec_c1.2.2.1 5 [Token.kw "GROUP"] 0 (by decide)

/-- C6: WHERE's relational operators evaluate by the sign of
`compareValues`; `compareValues` returns 0 on two nulls, treats null as
below any non-null value, subtracts numerically when both operands
parse as floats, and otherwise compares the stringified operands;
ORDER BY sorts with a stable sort whose comparator applies
`compareValues` key-by-key in listed order, DESC negating the per-key
result; sorting permutes the rows.  Checked on the spec's example
["10","2","abc"] ↦ ["2","10","abc"]. -/
theorem spec_c6 :
    (∀ (row : Row) (col : String) (v : Value),
      evaluateCondition row (.cmpC ">" col v) =
        .ok (decide (0 < (compareValues (getValue row col) v).num)) ∧
      evaluateCondition row (.cmpC ">=" col v) =
        .ok (decide (0 ≤ (compareValues (getValue row col) v).num)) ∧
      evaluateCondition row (.cmpC "<" col v) =
        .ok (decide ((compareValues (getValue row col) v).num < 0)) ∧
      evaluateCondition row (.cmpC "<=" col v) =
        .ok (decide ((compareValues (getValue row col) v).num ≤ 0))) ∧
    compareValues .vNull .vNull = jsqZero ∧
    (∀ b : Value, b ≠ .vNull →
      compareValues .vNull b = ⟨-1, 1⟩ ∧ compareValues b .vNull = ⟨1, 1⟩) ∧
    (∀ (a b : Value) (qa qb : JSQ), a ≠ .vNull → b ≠ .vNull →
      parseFloatV a = some qa → parseFloatV b = some qb →
      compareValues a b = numSub qa qb) ∧
    (∀ a b : Value, a ≠ .vNull → b ≠ .vNull →
      parseFloatV a = none ∨ parseFloatV b = none →
      compareValues a b = strCmpNum (jsString a) (jsString b)) ∧
    (∀ (rows : List Row) (ob : List OrderItem), List.Perm (sortRows rows ob) rows) ∧
    (∀ (rows : List Row) (ob : List OrderItem), ob ≠ [] →
      sortRows rows ob = stableSort (fun a b => (rowCmp ob a b).num < 0) rows) ∧
    (∀ (o : OrderItem) (rest : List OrderItem) (a b : Row),
      (compareValues (getValue a o.column) (getValue b o.column)).num = 0 →
      rowCmp (o :: rest) a b = rowCmp rest a b) ∧
    (∀ (c : String) (a b : Row),
      rowCmp [⟨c, "DESC"⟩] a b = numNeg (rowCmp [⟨c, "ASC"⟩] a b)) ∧
    sortRows [[("v", .vStr "10")], [("v", .vStr "2")], [("v", .vStr "abc")]]
        [⟨"v", "ASC"⟩] =
      [[("v", .vStr "2")], [("v", .vStr "10")], [("v", .vStr "abc")]] := by
  refine ⟨?_, rfl, ?_, ?_, ?_, ?_, ?_, ?_, ?_, by decide⟩
  · intro row col v
    exact ⟨rfl, rfl, rfl, rfl⟩
  · intro b hb
    cases b with
    | vNull => exact absurd rfl hb
    | vNaN => exact ⟨rfl, rfl⟩
    | vNum q => exact ⟨rfl, rfl⟩
    | vStr s => exact ⟨rfl, rfl⟩
  · intro a b qa qb ha hb hqa hqb
    simp [compareValues, ha, hb, hqa, hqb]
  · intro a b ha hb hpf
    rcases hpf with h | h
    · cases hb' : parseFloatV b <;> simp [compareValues, ha, hb, h, hb']
    · cases ha' : parseFloatV a <;> simp [compareValues, ha, hb, h, ha']
  · intro rows ob
    by_cases hob : ob.isEmpty
    · simp [sortRows, hob]
    · simp only [sortRows, hob, if_false, Bool.false_eq_true]
      exact stableSort_perm _ rows
  · intro rows ob hob
    have : ob.isEmpty = false := by
      cases ob with
      | nil => exact absurd rfl hob
      | cons x xs => rfl
    simp [sortRows, this]
  · intro o rest a b h
    simp [rowCmp, h]
  · intro c a b
    by_cases hc : (compareValues (getValue a c) (getValue b c)).num = 0
    · simp [rowCmp, hc, numNeg, jsqZero]
    · simp [rowCmp, hc]

theorem spec_c6_witness :
    compareValues (.vStr "2") (.vStr "10") = numSub ⟨2, 1⟩ ⟨10, 1⟩ :=
  spec_c6.2.2.2.1 (.vStr "2") (.vStr "10") ⟨2, 1⟩ ⟨10, 1⟩
    (by decide) (by decide) (by decide) (by decide)

-- ============================
-- Row-update and grouping lemmas (for the GROUP BY claim)
-- ============================

theorem rowLookup_append (xs : Row) (k k' : String) (v : Value) :
    rowLookup (xs ++ [(k, v)]) k' =
      match rowLookup xs k' with
      | some w => some w
      | none => if k == k' then some v else none := by
  induction xs with
  | nil => simp [rowLookup]
  | cons x xs ih =>
    simp only [List.cons_append, rowLookup]
    cases hx : x.1 == k'
    · simpa [hx] using ih
    · simp [hx]

theorem rowLookup_map_overwrite (xs : Row) (k k' : String) (v : Value) :
    rowLookup (xs.map (fun p => if p.1 == k then (k, v) else p)) k' =
      if xs.any (fun p => p.1 == k) && (k == k') then some v else rowLookup xs k' := by
  induction xs with
  | nil => simp [rowLookup]
  | cons x xs ih =>
    cases hx : x.1 == k
    · cases hx' : x.1 == k'
      · simp only [List.map_cons, hx, Bool.false_eq_true, if_false, List.any_cons,
          Bool.false_or, rowLookup, hx']
        exact ih
      · have hx1 : x.1 = k' := beq_iff_eq.mp hx'
        have hkk : (k == k') = false := by
          cases hq : k == k'
          · rfl
          · have hkeq : k = k' := beq_iff_eq.mp hq
            have hcontr : (x.1 == k) = true := by simp [hx1, hkeq]
            exact absurd hcontr (by simp [hx])
        simp [rowLookup, hx, hx', hkk]
    · have hxk : x.1 = k := beq_iff_eq.mp hx
      cases hkk : k == k'
      · have hx' : (x.1 == k') = false := by rw [hxk]; exact hkk
        simpa [rowLookup, hx, hkk, hx'] using ih
      · simp [rowLookup, hx, hkk]

theorem rowLookup_none_of_any_false (r : Row) (k : String)
    (h : r.any (fun p => p.1 == k) = false) :
    rowLookup r k = none := by
  induction r with
  | nil => rfl
  | cons x xs ih =>
    simp only [List.any_cons, Bool.or_eq_false_iff] at h
    simp only [rowLookup, h.1, if_false, Bool.false_eq_true]
    exact ih h.2

theorem rowLookup_setKey_self (r : Row) (k : String) (v : Value) :
    rowLookup (setKey r k v) k = some v := by
  unfold setKey
  cases h : r.any (fun p => p.1 == k)
  · simp only [Bool.false_eq_true, if_false]
    rw [rowLookup_append, rowLookup_none_of_any_false r k h]
    simp
  · simp only [if_true]
    rw [rowLookup_map_overwrite]
    simp [h]

theorem rowLookup_setKey_other (r : Row) (k k' : String) (v : Value)
    (hne : (k == k') = false) :
    rowLookup (setKey r k v) k' = rowLookup r k' := by
  unfold setKey
  cases h : r.any (fun p => p.1 == k)
  · simp only [Bool.false_eq_true, if_false]
    rw [rowLookup_append]
    cases hr : rowLookup r k'
    · simp [hne]
    · simp
  · simp only [if_true]
    rw [rowLookup_map_overwrite]
    simp [hne]

theorem beq_false_of_ne {a b : String} (h : a ≠ b) : (a == b) = false := by
  cases hq : a == b
  · rfl
  · exact absurd (beq_iff_eq.mp hq) h

/-- Looking up `c` after writing every column of `cols` with `f`. -/
theorem rowLookup_foldl_setKey (cols : List String) (r : Row) (c : String)
    (f : String → Value) :
    rowLookup (cols.foldl (fun acc col => setKey acc col (f col)) r) c =
      if c ∈ cols then some (f c) else rowLookup r c := by
  induction cols generalizing r with
  | nil => simp
  | cons col rest ih =>
    simp only [List.foldl_cons]
    rw [ih]
    by_cases hc : c ∈ rest
    · simp [hc]
    · by_cases hceq : c = col
      · subst hceq
        simp [hc, rowLookup_setKey_self]
      · have hbe : (col == c) = false := beq_false_of_ne (fun he => hceq he.symm)
        simp [hc, hceq, rowLookup_setKey_other r col c (f col) hbe]

/-- The select-list pass of `aggregate` never touches a key that is not
an aggregate alias. -/
theorem rowLookup_aggStep (group : List Row) (r : Row) (col : ColSpec) (c : String)
    (h : ∀ t cc a, col = ColSpec.agg t cc a → aggAlias t cc a ≠ c) :
    rowLookup (aggStep group r col) c = rowLookup r c := by
  cases col with
  | plain name => rfl
  | aliased cc a => rfl
  | agg t cc a =>
    have hne : (aggAlias t cc a == c) = false := beq_false_of_ne (h t cc a rfl)
    simp only [aggStep]
    split
    · exact rowLookup_setKey_other r _ c _ hne
    · split
      · exact rowLookup_setKey_other r _ c _ hne
      · split
        · exact rowLookup_setKey_other r _ c _ hne
        · split
          · exact rowLookup_setKey_other r _ c _ hne
          · split
            · exact rowLookup_setKey_other r _ c _ hne
            · rfl

theorem rowLookup_foldl_aggStep (group : List Row) (sels : List ColSpec) (r : Row)
    (c : String)
    (h : ∀ t cc a, ColSpec.agg t cc a ∈ sels → aggAlias t cc a ≠ c) :
    rowLookup (sels.foldl (aggStep group) r) c = rowLookup r c := by
  induction sels generalizing r with
  | nil => rfl
  | cons sel rest ih =>
    simp only [List.foldl_cons]
    rw [ih (aggStep group r sel) (fun t cc a hm => h t cc a (List.mem_cons_of_mem sel hm))]
    exact rowLookup_aggStep group r sel c
      (fun t cc a he => h t cc a (he ▸ List.mem_cons_self sel rest))

/-- The distinct group keys in first-seen order. -/
def firstSeen : List String → List String
  | [] => []
  | k :: ks => k :: (firstSeen ks).filter (fun x => x != k)

theorem mem_firstSeen (a : String) (l : List String) : a ∈ firstSeen l ↔ a ∈ l := by
  induction l with
  | nil => simp [firstSeen]
  | cons k ks ih =>
    by_cases hak : a = k
    · simp [firstSeen, hak]
    · simp [firstSeen, List.mem_filter, ih, hak]

theorem firstSeen_cons (x : String) (l : List String) :
    firstSeen (x :: l) = x :: (firstSeen l).filter (fun y => y != x) := rfl

theorem firstSeen_append (l : List String) (k : String) :
    firstSeen (l ++ [k]) = if k ∈ l then firstSeen l else firstSeen l ++ [k] := by
  induction l with
  | nil => simp [firstSeen]
  | cons x xs ih =>
    rw [List.cons_append, firstSeen_cons, ih, firstSeen_cons]
    by_cases hk : k ∈ xs
    · rw [if_pos hk, if_pos (List.mem_cons_of_mem x hk)]
    · by_cases hkx : k = x
      · subst hkx
        rw [if_neg hk, if_pos (List.mem_cons_self k xs), List.filter_append]
        simp
      · rw [if_neg hk, if_neg (by simp [hkx, hk]), List.filter_append]
        simp [bne_iff_ne, hkx]

theorem filter_key_nil (f : Row → String) (rows : List Row) (k : String)
    (h : ¬ k ∈ rows.map f) :
    rows.filter (fun r => f r == k) = [] := by
  induction rows with
  | nil => rfl
  | cons r rs ih =>
    simp only [List.map_cons, List.mem_cons, not_or] at h
    have hfr : (f r == k) = false := beq_false_of_ne (fun he => h.1 he.symm)
    simp only [List.filter_cons, hfr, Bool.false_eq_true, if_false]
    exact ih h.2

/-- The JS `Map` of groups built by the fold is the first-seen key list
paired with the filtered rows of each key. -/
theorem foldl_insertGroup (f : Row → String) (rows : List Row) :
    rows.foldl (fun gs row => insertGroup gs (f row) row) [] =
      (firstSeen (rows.map f)).map (fun k => (k, rows.filter (fun r => f r == k))) := by
  induction rows using List.reverseRecOn with
  | nil => rfl
  | append_singleton rows r ih =>
    rw [List.foldl_append, List.foldl_cons, List.foldl_nil, ih, List.map_append,
      List.map_cons, List.map_nil, firstSeen_append]
    by_cases hmem : f r ∈ rows.map f
    · simp only [hmem, if_true]
      have hany : ((firstSeen (rows.map f)).map
          (fun k => (k, rows.filter (fun r' => f r' == k)))).any
            (fun p => p.1 == f r) = true := by
        refine List.any_eq_true.mpr
          ⟨(f r, rows.filter (fun r' => f r' == f r)), ?_, by simp⟩
        exact List.mem_map.mpr ⟨f r, (mem_firstSeen _ _).mpr hmem, rfl⟩
      simp only [insertGroup, hany, if_true, List.map_map]
      apply List.map_congr_left
      intro k hk
      by_cases hkr : k = f r
      · subst hkr
        simp [List.filter_append]
      · have h1 : (k == f r) = false := beq_false_of_ne hkr
        have h2 : (f r == k) = false := beq_false_of_ne (fun he => hkr he.symm)
        simp [List.filter_append, h1, h2, Function.comp]
    · simp only [hmem, if_false]
      have hany : ((firstSeen (rows.map f)).map
          (fun k => (k, rows.filter (fun r' => f r' == k)))).any
            (fun p => p.1 == f r) = false := by
        refine List.any_eq_false.mpr ?_
        intro x hx
        obtain ⟨k, hk, hkx⟩ := List.mem_map.mp hx
        have hmf : k ∈ rows.map f := (mem_firstSeen _ _).mp hk
        have hne : k ≠ f r := fun he => hmem (he ▸ hmf)
        rw [← hkx]
        simp [beq_false_of_ne hne]
      simp only [insertGroup, hany, Bool.false_eq_true, if_false, List.map_append,
        List.map_cons, List.map_nil]
      have hpart1 : (firstSeen (rows.map f)).map
            (fun k => (k, (rows ++ [r]).filter (fun r' => f r' == k))) =
          (firstSeen (rows.map f)).map
            (fun k => (k, rows.filter (fun r' => f r' == k))) := by
        apply List.map_congr_left
        intro k hk
        have : k ∈ rows.map f := (mem_firstSeen _ _).mp hk
        have hne : (f r == k) = false :=
          beq_false_of_ne (fun he => hmem (he ▸ this))
        simp [List.filter_append, hne]
      have hpart2 : (rows ++ [r]).filter (fun r' => f r' == f r) = [r] := by
        rw [List.filter_append, filter_key_nil f rows (f r) hmem]
        simp
      rw [hpart1, hpart2]

/-- `groupBy` = one aggregated row per distinct key, keys in first-seen
order, each over exactly the rows sharing that key. -/
theorem groupByRows_eq (rows : List Row) (gcols : List String) (sels : List ColSpec)
    (h : gcols ≠ []) :
    groupByRows rows gcols sels =
      (firstSeen (rows.map (fun r => getGroupKey r gcols))).map
        (fun k => aggregate (rows.filter (fun r => getGroupKey r gcols == k)) gcols sels) := by
  have hne : gcols.isEmpty = false := by
    cases gcols with
    | nil => exact absurd rfl h
    | cons x xs => rfl
  simp only [groupByRows, hne, Bool.false_eq_true, if_false]
  rw [foldl_insertGroup (fun r => getGroupKey r gcols) rows, List.map_map]
  rfl

theorem aggregate_groupcol (g : List Row) (cols : List String) (sels : List ColSpec)
    (c : String) (hc : c ∈ cols)
    (hsel : ∀ t cc a, ColSpec.agg t cc a ∈ sels → aggAlias t cc a ≠ c) :
    rowLookup (aggregate g cols sels) c = some (getValue (g.headD []) c) := by
  unfold aggregate
  rw [rowLookup_foldl_aggStep g sels _ c hsel, rowLookup_foldl_setKey]
  simp [hc]

/-- The spec's group-aggregation example. -/
def rowsC5 : List Row :=
  [[("env", .vStr "prod"), ("v", .vStr "1")],
   [("env", .vStr "prod"), ("v", .vStr "3")],
   [("env", .vStr "dev"), ("v", .vStr "5")]]

/-- AST of `SELECT env, COUNT(*) as c, SUM(v) as s ... GROUP BY env`. -/
def astC5 : Ast :=
  { columns := [.plain "env", .agg "COUNT" "*" (some "c"), .agg "SUM" "v" (some "s")],
    fromTable := some "data", whereCond := none, orderBy := none,
    groupByCols := some ["env"], joinSpec := none, limit := none }

/-- C5: with a non-empty GROUP BY, the filtered rows are partitioned by
group key in first-seen order, one aggregated result row per group; a
group-by column of the result reads the group's first row's value
(whenever no aggregate alias shadows it); `COUNT(*)` is the group size
and a `SUM` input that does not parse as a float contributes 0.
Checked on the spec's example, yielding exactly
[{env:"prod",c:2,s:4}, {env:"dev",c:1,s:5}]. -/
theorem spec_c5 :
    (∀ (rows : List Row) (gcols : List String) (sels : List ColSpec), gcols ≠ [] →
      groupByRows rows gcols sels =
        (firstSeen (rows.map (fun r => getGroupKey r gcols))).map
          (fun k => aggregate (rows.filter (fun r => getGroupKey r gcols == k))
            gcols sels)) ∧
    (∀ (g : List Row) (cols : List String) (sels : List ColSpec) (c : String),
      c ∈ cols → (∀ t cc a, ColSpec.agg t cc a ∈ sels → aggAlias t cc a ≠ c) →
      rowLookup (aggregate g cols sels) c = some (getValue (g.headD []) c)) ∧
    (∀ g : List Row, countAgg g "*" = .vNum ⟨g.length, 1⟩) ∧
    (∀ (g : List Row) (c : String) (r : Row), parseFloatV (getValue r c) = none →
      sumAgg (g ++ [r]) c = sumAgg g c) ∧
    executeQuery astC5 rowsC5 none =
      .ok [[("env", .vStr "prod"), ("c", .vNum ⟨2, 1⟩), ("s", .vNum ⟨4, 1⟩)],
           [("env", .vStr "dev"), ("c", .vNum ⟨1, 1⟩), ("s", .vNum ⟨5, 1⟩)]] := by
  refine ⟨fun rows gcols sels h => groupByRows_eq rows gcols sels h,
    fun g cols sels c hc hsel => aggregate_groupcol g cols sels c hc hsel,
    fun g => rfl, ?_, by decide⟩
  intro g c r h
  simp [sumAgg, List.foldl_append, h, numAdd, jsqZero]

theorem spec_c5_witness :
    groupByRows rowsC5 ["env"] astC5.columns =
      (firstSeen (rowsC5.map (fun r => getGroupKey r ["env"]))).map
        (fun k => aggregate (rowsC5.filter (fun r => getGroupKey r ["env"] == k))
          ["env"] astC5.columns) :=
  spec_c5.1 rowsC5 ["env"] astC5.columns (by decide)

-- ============================
-- Tokenizer termination (claim C3) and lexer invariants
-- ============================

/-- A tokenizer step that yields a non-EOF token without consuming input
makes `tokenize` loop forever. -/
theorem tokenizeF_stuck (cs : List Char) (t : Token)
    (h : nextToken cs = (t, cs)) (ht : (t == Token.eof) = false) :
    ∀ fuel, tokenizeF fuel cs = none := by
  intro fuel
  induction fuel with
  | zero => rfl
  | succ fuel ih => simp [tokenizeF, h, ht, ih]

/-- If one tokenizer step leads to a state where `tokenize` loops, it
loops from the current state too. -/
theorem tokenizeF_step_none (cs rest : List Char) (t : Token)
    (h : nextToken cs = (t, rest)) (ht : (t == Token.eof) = false)
    (hrest : ∀ fuel, tokenizeF fuel rest = none) :
    ∀ fuel, tokenizeF fuel cs = none := by
  intro fuel
  cases fuel with
  | zero => rfl
  | succ fuel => simp [tokenizeF, h, ht, hrest fuel]

/-- C3 (code bug): the claim says `tokenize` always terminates with an
EndOfInput-terminated token list, but a character in no lexical class
(here `*`, which the parser's own `SELECT *` branch expects as a token)
makes `readIdentifier` return an empty identifier without consuming
anything, so `tokenize` loops forever: the fuelled model returns
`none` at every fuel, both for the input "*" and for
"SELECT * FROM data". -/
theorem spec_c3 :
    mkLexer "*" = ['*'] ∧
    nextToken ['*'] = (Token.id "", ['*']) ∧
    (∀ fuel, tokenizeF fuel (mkLexer "*") = none) ∧
    (∀ fuel, tokenizeF fuel (mkLexer "SELECT * FROM data") = none) := by
  refine ⟨by decide, by decide, ?_, ?_⟩
  · have h : nextToken (mkLexer "*") = (Token.id "", mkLexer "*") := by decide
    exact tokenizeF_stuck (mkLexer "*") (Token.id "") h (by decide)
  · have h2 : nextToken ("* FROM data".data) = (Token.id "", "* FROM data".data) := by
      decide
    have hstuck := tokenizeF_stuck ("* FROM data".data) (Token.id "") h2 (by decide)
    have h1 : nextToken (" * FROM data".data) = (Token.id "", "* FROM data".data) := by
      decide
    have hstep1 := tokenizeF_step_none (" * FROM data".data) ("* FROM data".data)
      (Token.id "") h1 (by decide) hstuck
    have h0 : nextToken (mkLexer "SELECT * FROM data") =
        (Token.kw "SELECT", " * FROM data".data) := by decide
    exact tokenizeF_step_none (mkLexer "SELECT * FROM data") (" * FROM data".data)
      (Token.kw "SELECT") h0 (by decide) hstep1

theorem readOperatorTok_len (cs : List Char) : (readOperatorTok cs).1.length ≤ 2 := by
  cases cs with
  | nil => decide
  | cons c rest =>
    cases rest with
    | nil => simp [readOperatorTok, String.length]
    | cons n rest2 =>
      simp only [readOperatorTok]
      split
      · simp [String.length]
      · simp [String.length]

theorem nextToken_op_len (cs : List Char) (s : String)
    (h : (nextToken cs).1 = Token.op s) : s.length ≤ 2 := by
  unfold nextToken at h
  cases hcs : cs.dropWhile Char.isWhitespace with
  | nil => rw [hcs] at h; exact absurd h (by simp)
  | cons c rest =>
    rcases he1 : readStringLit c rest with ⟨v1, r1⟩
    rcases he2 : readNumberTok (c :: rest) with ⟨q2, r2⟩
    rcases he3 : readOperatorTok (c :: rest) with ⟨s3, r3⟩
    rcases he4 : readIdentifierTok (c :: rest) with ⟨v4, r4⟩
    rw [hcs] at h
    simp only [he1, he2, he3, he4] at h
    split at h
    · simp at h
    · split at h
      · simp at h
      · split at h
        · simp only [Token.op.injEq] at h
          have hlen := readOperatorTok_len (c :: rest)
          rw [he3] at hlen
          rw [← h]
          exact hlen
        · split at h
          · simp at h
          · split at h
            · simp at h
            · simp at h

theorem tokenizeF_op_len (fuel : Nat) (cs : List Char) (ts : List Token)
    (h : tokenizeF fuel cs = some ts) :
    ∀ s, Token.op s ∈ ts → s.length ≤ 2 := by
  induction fuel generalizing cs ts with
  | zero => simp [tokenizeF] at h
  | succ fuel ih =>
    simp only [tokenizeF] at h
    rcases hnt : nextToken cs with ⟨t, rest⟩
    rw [hnt] at h
    by_cases ht : (t == Token.eof) = true
    · rw [if_pos ht] at h
      simp only [Option.some.injEq] at h
      intro s hs
      rw [← h] at hs
      simp at hs
    · rw [if_neg ht] at h
      cases hrec : tokenizeF fuel rest with
      | none => rw [hrec] at h; simp at h
      | some ts' =>
        rw [hrec] at h
        simp only [Option.some.injEq] at h
        intro s hs
        rw [← h] at hs
        cases hs with
        | head =>
          apply nextToken_op_len cs
          rw [hnt]
        | tail _ hmem => exact ih rest ts' hrec s hmem

-- ============================
-- Execution totality for parser-produced ASTs (claim C4)
-- ============================

/-- No comparison node of the tree carries the operator type LIKE (the
only branch of `evaluateCondition` that can throw, via `new RegExp`). -/
def noLike : Cond → Prop
  | .andC l r => noLike l ∧ noLike r
  | .orC l r => noLike l ∧ noLike r
  | .notC c => noLike c
  | .cmpC op _ _ => op ≠ "LIKE"
  | .inC _ _ => True

def exceptIsOk {ε α : Type} : Except ε α → Bool
  | .ok _ => true
  | .error _ => false

@[simp]
theorem exceptIsOk_ok {ε α : Type} (v : α) : exceptIsOk (Except.ok v : Except ε α) = true :=
  rfl

@[simp]
theorem exceptIsOk_err {ε α : Type} (e : ε) :
    exceptIsOk (Except.error e : Except ε α) = false := rfl

theorem exists_ok_of_isOk {ε α : Type} (e : Except ε α) (h : exceptIsOk e = true) :
    ∃ out, e = .ok out := by
  cases e with
  | ok v => exact ⟨v, rfl⟩
  | error err => simp [exceptIsOk] at h

theorem evaluateCondition_ok (c : Cond) (row : Row) (h : noLike c) :
    ∃ b, evaluateCondition row c = .ok b := by
  apply exists_ok_of_isOk
  induction c with
  | andC l r ihl ihr =>
    obtain ⟨hl, hr⟩ := h
    obtain ⟨bl, hbl⟩ := exists_ok_of_isOk _ (ihl hl)
    cases bl
    · simp [evaluateCondition, hbl]
    · simp [evaluateCondition, hbl, ihr hr]
  | orC l r ihl ihr =>
    obtain ⟨hl, hr⟩ := h
    obtain ⟨bl, hbl⟩ := exists_ok_of_isOk _ (ihl hl)
    cases bl
    · simp [evaluateCondition, hbl, ihr hr]
    · simp [evaluateCondition, hbl]
  | notC c ih =>
    obtain ⟨b, hb⟩ := exists_ok_of_isOk _ (ih h)
    simp [evaluateCondition, hb]
  | cmpC op col v =>
    cases h1 : (op == "=" || op == "==")
    · cases h2 : (op == "!=" || op == "<>")
      · cases h3 : op == ">"
        · cases h4 : op == ">="
          · cases h5 : op == "<"
            · cases h6 : op == "<="
              · cases h7 : op == "LIKE"
                · cases h8 : op == "IN"
                  · simp [evaluateCondition, h1, h2, h3, h4, h5, h6, h7, h8]
                  · simp [evaluateCondition, h1, h2, h3, h4, h5, h6, h7, h8]
                · exact absurd (beq_iff_eq.mp h7) h
              · simp [evaluateCondition, h1, h2, h3, h4, h5, h6]
            · simp [evaluateCondition, h1, h2, h3, h4, h5]
          · simp [evaluateCondition, h1, h2, h3, h4]
        · simp [evaluateCondition, h1, h2, h3]
      · simp [evaluateCondition, h1, h2]
    · simp [evaluateCondition, h1]
  | inC col vs => simp [evaluateCondition]

theorem filterCond_ok (rows : List Row) (c : Cond) (h : noLike c) :
    ∃ l, filterCond rows c = .ok l := by
  apply exists_ok_of_isOk
  induction rows with
  | nil => simp [filterCond]
  | cons r rs ih =>
    obtain ⟨b, hb⟩ := evaluateCondition_ok c r h
    obtain ⟨l, hl⟩ := exists_ok_of_isOk _ ih
    simp [filterCond, hb, hl]

theorem executeQuery_ok (ast : Ast) (data : List Row) (opts : Option (List Row))
    (h : ∀ c, ast.whereCond = some c → noLike c) :
    ∃ out, executeQuery ast data opts = .ok out := by
  apply exists_ok_of_isOk
  by_cases hd : data.isEmpty
  · simp [executeQuery, hd]
  · cases hw : ast.whereCond with
    | none => simp [executeQuery, hd, hw]
    | some c =>
      obtain ⟨l, hl⟩ := filterCond_ok
        (match ast.joinSpec, opts with
         | some _, some rightData => performJoin data rightData ast.joinSpec
         | _, _ => data) c (h c hw)
      simp [executeQuery, hd, hw, hl]

/-- The tokens of this list never put the string LIKE in an operator
token (true of every lexer output, whose operator values have at most
two characters). -/
def tsOkLike (ts : List Token) : Prop :=
  ∀ s, Token.op s ∈ ts → s ≠ "LIKE"

theorem cur_op_mem (ts : List Token) (pos : Nat) (s : String)
    (h : cur ts pos = Token.op s) : Token.op s ∈ ts := by
  unfold cur at h
  induction ts generalizing pos with
  | nil => simp [List.getD] at h
  | cons t ts ih =>
    cases pos with
    | zero =>
      simp only [List.getD_cons_zero] at h
      exact h ▸ List.mem_cons_self t ts
    | succ pos =>
      simp only [List.getD_cons_succ] at h
      exact List.mem_cons_of_mem t (ih pos h)

theorem expectT_operator (ts : List Token) (pos : Nat) (tok : Token) (pos2 : Nat)
    (h : expectT ts pos .operator = .ok (tok, pos2)) :
    ∃ s, tok = Token.op s ∧ Token.op s ∈ ts := by
  unfold expectT at h
  by_cases hty : ((cur ts pos).ttype == TokType.operator) = true
  · rw [if_pos hty] at h
    simp only [Except.ok.injEq, Prod.mk.injEq] at h
    obtain ⟨h1, _⟩ := h
    cases hc : cur ts pos with
    | op s =>
      refine ⟨s, ?_, cur_op_mem ts pos s hc⟩
      rw [← h1, hc]
    | kw v => rw [hc] at hty; simp [Token.ttype] at hty
    | id v => rw [hc] at hty; simp [Token.ttype] at hty
    | str v => rw [hc] at hty; simp [Token.ttype] at hty
    | num v => rw [hc] at hty; simp [Token.ttype] at hty
    | punct v => rw [hc] at hty; simp [Token.ttype] at hty
    | eof => rw [hc] at hty; simp [Token.ttype] at hty
  · rw [if_neg hty] at h
    simp at h

/-- Conditions built by the parser never carry a LIKE comparison: the
operator of a comparison node is the value of an OPERATOR token of the
input, and the IN special case builds the dedicated list node. -/
theorem parser_noLike (fuel : Nat) :
    (∀ (ts : List Token) (pos : Nat) (c : Cond) (pos2 : Nat), tsOkLike ts →
      parseCondition fuel ts pos = .ok (c, pos2) → noLike c) ∧
    (∀ (ts : List Token) (left : Cond) (pos : Nat) (c : Cond) (pos2 : Nat), tsOkLike ts →
      noLike left → parseCondLoop fuel ts left pos = .ok (c, pos2) → noLike c) ∧
    (∀ (ts : List Token) (pos : Nat) (c : Cond) (pos2 : Nat), tsOkLike ts →
      parseConditionTerm fuel ts pos = .ok (c, pos2) → noLike c) := by
  induction fuel with
  | zero =>
    refine ⟨?_, ?_, ?_⟩
    · intro ts pos c pos2 _ h
      simp [parseCondition] at h
    · intro ts left pos c pos2 _ _ h
      simp [parseCondLoop] at h
    · intro ts pos c pos2 _ h
      simp [parseConditionTerm] at h
  | succ fuel ih =>
    obtain ⟨ihC, ihL, ihT⟩ := ih
    have termCase : ∀ (ts : List Token) (pos : Nat) (c : Cond) (pos2 : Nat), tsOkLike ts →
        parseConditionTerm (fuel + 1) ts pos = .ok (c, pos2) → noLike c := by
      intro ts pos c pos2 hts h
      simp only [parseConditionTerm] at h
      by_cases hnot : (cur ts pos).valIs "NOT" = true
      · rw [if_pos hnot] at h
        cases hterm : parseConditionTerm fuel ts (pos + 1) with
        | error e => rw [hterm] at h; simp at h
        | ok v =>
          obtain ⟨c', p'⟩ := v
          rw [hterm] at h
          simp only [except_bind_ok, Except.ok.injEq, Prod.mk.injEq] at h
          obtain ⟨h1, _⟩ := h
          rw [← h1]
          show noLike c'
          exact ihT ts (pos + 1) c' p' hts hterm
      · rw [if_neg hnot] at h
        by_cases hpar : (cur ts pos).valIs "(" = true
        · rw [if_pos hpar] at h
          cases hcond : parseCondition fuel ts (pos + 1) with
          | error e => rw [hcond] at h; simp at h
          | ok v =>
            obtain ⟨c', p'⟩ := v
            rw [hcond] at h
            simp only [except_bind_ok] at h
            cases hexp : expectTV ts p' .punctuation ")" with
            | error e => rw [hexp] at h; simp at h
            | ok v2 =>
              rw [hexp] at h
              simp only [except_bind_ok, Except.ok.injEq, Prod.mk.injEq] at h
              obtain ⟨h1, _⟩ := h
              rw [← h1]
              exact ihC ts (pos + 1) c' p' hts hcond
        · rw [if_neg hpar] at h
          cases hcol : parseColumnIdentifier ts pos with
          | error e => rw [hcol] at h; simp at h
          | ok v1 =>
            obtain ⟨column, p1⟩ := v1
            rw [hcol] at h
            simp only [except_bind_ok] at h
            cases hop : expectT ts p1 .operator with
            | error e => rw [hop] at h; simp at h
            | ok v2 =>
              obtain ⟨opTok, p2⟩ := v2
              rw [hop] at h
              simp only [except_bind_ok] at h
              cases hval : parseValue ts p2 with
              | error e => rw [hval] at h; simp at h
              | ok v3 =>
                obtain ⟨v, p3⟩ := v3
                rw [hval] at h
                simp only [except_bind_ok] at h
                obtain ⟨s, hs, hmem⟩ := expectT_operator ts p1 opTok p2 hop
                have hsnl : opTok.strVal ≠ "LIKE" := by
                  rw [hs]
                  exact hts s hmem
                by_cases hin : (opTok.strVal == "IN" && (cur ts p3).valIs "(") = true
                · rw [if_pos hin] at h
                  cases hvals : parseInVals fuel ts (p3 + 1) with
                  | error e => rw [hvals] at h; simp at h
                  | ok v4 =>
                    obtain ⟨vs, p4⟩ := v4
                    rw [hvals] at h
                    simp only [except_bind_ok] at h
                    cases hexp : expectTV ts p4 .punctuation ")" with
                    | error e => rw [hexp] at h; simp at h
                    | ok v5 =>
                      rw [hexp] at h
                      simp only [except_bind_ok, Except.ok.injEq, Prod.mk.injEq] at h
                      obtain ⟨h1, _⟩ := h
                      rw [← h1]
                      show noLike (.inC column vs)
                      simp [noLike]
                · rw [if_neg hin] at h
                  simp only [Except.ok.injEq, Prod.mk.injEq] at h
                  obtain ⟨h1, _⟩ := h
                  rw [← h1]
                  show noLike (.cmpC opTok.strVal column v)
                  simpa [noLike] using hsnl
    refine ⟨?_, ?_, termCase⟩
    · intro ts pos c pos2 hts h
      simp only [parseCondition] at h
      cases hterm : parseConditionTerm fuel ts pos with
      | error e => rw [hterm] at h; simp at h
      | ok v =>
        obtain ⟨left, p'⟩ := v
        rw [hterm] at h
        simp only [except_bind_ok] at h
        exact ihL ts left p' c pos2 hts (ihT ts pos left p' hts hterm) h
    · intro ts left pos c pos2 hts hleft h
      simp only [parseCondLoop] at h
      by_cases hao : ((cur ts pos).valIs "AND" || (cur ts pos).valIs "OR") = true
      · rw [if_pos hao] at h
        cases hterm : parseConditionTerm fuel ts (pos + 1) with
        | error e => rw [hterm] at h; simp at h
        | ok v =>
          obtain ⟨right, p'⟩ := v
          rw [hterm] at h
          simp only [except_bind_ok] at h
          have hright : noLike right := ihT ts (pos + 1) right p' hts hterm
          have hml : noLike (mkLogical ((cur ts pos).strVal) left right) := by
            unfold mkLogical
            split
            · exact ⟨hleft, hright⟩
            · exact ⟨hleft, hright⟩
          exact ihL ts _ p' c pos2 hts hml h
      · rw [if_neg hao] at h
        simp only [Except.ok.injEq, Prod.mk.injEq] at h
        obtain ⟨h1, _⟩ := h
        rw [← h1]
        exact hleft

theorem parse_whereCond_noLike (fuel : Nat) (ts : List Token) (pos : Nat) (ast : Ast)
    (pos2 : Nat) (hts : tsOkLike ts) (h : parse fuel ts pos = .ok (ast, pos2)) :
    ∀ c, ast.whereCond = some c → noLike c := by
  unfold parse at h
  cases hsel : parseSelect fuel ts pos with
  | error e => rw [hsel] at h; simp at h
  | ok v1 =>
    obtain ⟨cols, p1⟩ := v1
    rw [hsel] at h
    simp only [except_bind_ok] at h
    cases hfrom : parseFrom ts p1 with
    | error e => rw [hfrom] at h; simp at h
    | ok v2 =>
      obtain ⟨f, p2⟩ := v2
      rw [hfrom] at h
      simp only [except_bind_ok] at h
      cases hwh : parseWhere fuel ts p2 with
      | error e => rw [hwh] at h; simp at h
      | ok v3 =>
        obtain ⟨w, p3⟩ := v3
        rw [hwh] at h
        simp only [except_bind_ok] at h
        cases hob : parseOrderBy fuel ts p3 with
        | error e => rw [hob] at h; simp at h
        | ok v4 =>
          obtain ⟨ob, p4⟩ := v4
          rw [hob] at h
          simp only [except_bind_ok] at h
          cases hgb : parseGroupBy fuel ts p4 with
          | error e => rw [hgb] at h; simp at h
          | ok v5 =>
            obtain ⟨gb, p5⟩ := v5
            rw [hgb] at h
            simp only [except_bind_ok] at h
            cases hj : parseJoin ts p5 with
            | error e => rw [hj] at h; simp at h
            | ok v6 =>
              obtain ⟨j, p6⟩ := v6
              rw [hj] at h
              simp only [except_bind_ok] at h
              cases hlim : parseLimit ts p6 with
              | error e => rw [hlim] at h; simp at h
              | ok v7 =>
                obtain ⟨lim, p7⟩ := v7
                rw [hlim] at h
                simp only [except_bind_ok, Except.ok.injEq, Prod.mk.injEq] at h
                obtain ⟨h1, _⟩ := h
                intro c hc
                rw [← h1] at hc
                change w = some c at hc
                unfold parseWhere at hwh
                by_cases hw : (cur ts p2).valIs "WHERE" = true
                · rw [if_pos hw] at hwh
                  cases hcond : parseCondition fuel ts (p2 + 1) with
                  | error e => rw [hcond] at hwh; simp at hwh
                  | ok vc =>
                    obtain ⟨c0, pc⟩ := vc
                    rw [hcond] at hwh
                    simp only [except_bind_ok, Except.ok.injEq, Prod.mk.injEq] at hwh
                    obtain ⟨hw1, _⟩ := hwh
                    rw [← hw1] at hc
                    simp only [Option.some.injEq] at hc
                    rw [← hc]
                    exact (parser_noLike fuel).1 ts (p2 + 1) c0 pc hts hcond
                · rw [if_neg hw] at hwh
                  simp only [Except.ok.injEq, Prod.mk.injEq] at hwh
                  obtain ⟨hw1, _⟩ := hwh
                  rw [← hw1] at hc
                  simp at hc

/-- C4: executeQuery never throws on any AST the front end can actually
produce: every operator type of a parsed WHERE tree comes from an
operator token (at most two characters, never LIKE — the only branch
whose regular-expression construction can throw), so evaluation always
returns a result; missing columns read as null, and SUM coerces every
non-numeric input to 0. -/
theorem spec_c4 :
    (∀ (q : String) (lexFuel parseFuel : Nat) (ts : List Token) (ast : Ast) (pos : Nat)
        (data : List Row) (opts : Option (List Row)),
      tokenizeF lexFuel (mkLexer q) = some ts →
      parse parseFuel ts 0 = .ok (ast, pos) →
      ∃ out, executeQuery ast data opts = .ok out) ∧
    (∀ (row : Row) (c : String), containsDot c = false → rowLookup row c = none →
      getValue row c = .vNull) ∧
    (∀ (rows : List Row) (c : String),
      (∀ r ∈ rows, parseFloatV (getValue r c) = none) → sumAgg rows c = jsqZero) := by
  refine ⟨?_, ?_, ?_⟩
  · intro q lexFuel parseFuel ts ast pos data opts htok hparse
    have hts : tsOkLike ts := by
      intro s hs heq
      have hlen := tokenizeF_op_len lexFuel (mkLexer q) ts htok s hs
      rw [heq] at hlen
      exact absurd hlen (by decide)
    exact executeQuery_ok ast data opts
      (parse_whereCond_noLike parseFuel ts 0 ast pos hts hparse)
  · intro row c h1 h2
    simp [getValue, h1, h2]
  · intro rows c h
    have aux : ∀ (l : List Row) (z : JSQ), (∀ r ∈ l, parseFloatV (getValue r c) = none) →
        l.foldl (fun s r => numAdd s ((parseFloatV (getValue r c)).getD jsqZero)) z = z := by
      intro l
      induction l with
      | nil => intro z _; rfl
      | cons r rs ih =>
        intro z hl
        have h0 : numAdd z ((parseFloatV (getValue r c)).getD jsqZero) = z := by
          rw [hl r (List.mem_cons_self r rs)]
          simp [numAdd, jsqZero]
        simp only [List.foldl_cons, h0]
        exact ih z (fun x hx => hl x (List.mem_cons_of_mem r hx))
    exact aux rows jsqZero h

def tsC4 : List Token :=
  [.kw "SELECT", .id "a", .kw "FROM", .id "t", .kw "WHERE", .id "a", .op ">",
   .num ⟨1, 1⟩, .eof]

def astC4 : Ast :=
  { columns := [.plain "a"], fromTable := some "t",
    whereCond := some (.cmpC ">" "a" (.vNum ⟨1, 1⟩)), orderBy := none,
    groupByCols := none, joinSpec := none, limit := none }

theorem spec_c4_witness :
    ∃ out, executeQuery astC4 [rowA] none = .ok out :=
  spec_c4.1 "SELECT a FROM t WHERE a > 1" 100 100 tsC4 astC4 8 [rowA] none
    (by decide) (by decide)

end JsSql
